import Mathlib

/-!
The field conversion rule engine of protoc-gen-bima.

A shallow embedding of `plugin.go` of `crowdeco/protoc-gen-bima`: the tables
(`basicTypes`, `wellKnownTypes`, `sqlTypes`), the helpers `fieldGoType`,
`parseType`, `toLowerFirst`, and `BimaPlugin.genFieldConversion`, which writes
the statements converting one message field to or from the model field of the
same name.

Go strings are Lean strings; the byte slicing `s[:1]`, `s[1:]` of the source is
taken on characters, which agrees on the ASCII identifiers and type names the
generator handles.  A Go `map[string]T` is an association list read with
`lookup`.  The generated file `g` is reduced to what the conversion code
observes: the result of `QualifiedGoIdent`; the lines printed by `g.P`, the
error handed to `p.Error` and the warnings printed on the console are returned
in an `Emit` record.

The model field resolver `walkModelFields` takes the parser and the file system
as a function from file names to parse results, and returns the file names it
handed to the parser next to its result; the binding emitter, the response
envelope emitter, `generateFile` and `Generate` return the lines they print
and the plugin state they leave.  The loop of `Generate` over the Go map of
marked files takes the order of the visit as an argument.
-/

namespace Bima

/-! ## Tables -/

/-- Reading of a Go `map[string]T`: the value stored under `k`, if any. -/
def lookup {α : Type} (k : String) : List (String × α) → Option α
  | [] => none
  | (k', v) :: rest => if k = k' then some v else lookup k rest

/-- The type `structFields = map[string]string`: field name to declared type. -/
abbrev structFields := List (String × String)

/-- The keys of `basicTypes`. -/
def basicTypes : List String :=
  ["bool", "int", "int8", "int16", "int32", "int64", "uint", "uint8", "uint16",
   "uint32", "uint64", "uintptr", "float32", "float64", "string", "[]byte"]

/-- The table `wellKnownTypes`: wrapper message name to the primitive it carries. -/
def wellKnownTypes : List (String × String) :=
  [("DoubleValue", "float64"), ("FloatValue", "float32"), ("Int64Value", "int64"),
   ("UInt64Value", "uint64"), ("Int32Value", "int32"), ("UInt32Value", "uint32"),
   ("BoolValue", "bool"), ("StringValue", "string"), ("BytesValue", "[]byte")]

/-- The table `sqlTypes`: SQL-null wrapper type to the name of its value member. -/
def sqlTypes : List (String × String) :=
  [("sql.NullString", "String"), ("sql.NullInt64", "Int64"), ("sql.NullInt32", "Int32"),
   ("sql.NullFloat64", "Float64"), ("sql.NullBool", "Bool"), ("sql.NullTime", "Time")]

/-! ## Schema descriptors (supplied by `protogen` / `protoreflect`) -/

/-- The type `protoreflect.Kind`. -/
inductive Kind where
  | BoolKind | EnumKind
  | Int32Kind | Sint32Kind | Sfixed32Kind
  | Uint32Kind | Fixed32Kind
  | Int64Kind | Sint64Kind | Sfixed64Kind
  | Uint64Kind | Fixed64Kind
  | FloatKind | DoubleKind
  | StringKind | BytesKind
  | MessageKind | GroupKind
  deriving DecidableEq, Repr

/-- Cardinality of a field as `IsList` / `IsMap` see it: a repeated field is a
list unless its message is a map entry, in which case it is a map. -/
inductive Cardinality where
  | singular | list | map
  deriving DecidableEq, Repr

/-- The part of `protoreflect.FieldDescriptor` read by the generator. -/
structure FieldDesc where
  IsWeak : Bool
  HasPresence : Bool
  Kind : Kind
  cardinality : Cardinality
  deriving DecidableEq, Repr

/-- The method `FieldDescriptor.IsList`. -/
def FieldDesc.IsList (d : FieldDesc) : Bool := d.cardinality = Cardinality.list

/-- The method `FieldDescriptor.IsMap`. -/
def FieldDesc.IsMap (d : FieldDesc) : Bool := d.cardinality = Cardinality.map

/-- The test `FieldDescriptor.Message() != nil`: the field is of message or group kind. -/
def FieldDesc.hasMessage (d : FieldDesc) : Bool :=
  d.Kind = Kind.MessageKind || d.Kind = Kind.GroupKind

/-- The type `protogen.GoIdent`. -/
structure GoIdent where
  GoName : String
  GoImportPath : String
  deriving DecidableEq, Repr

/-- The type `protogen.Field`: `Enum` and `Message` are the identifiers of the
enum or message type of the field (read only for fields of that kind), and
`MessageFields` are the fields of that message (read only for a map field,
whose message is the map entry with the key and the value field). -/
inductive Field where
  | mk (GoName : String) (Desc : FieldDesc) (Enum : GoIdent) (Message : GoIdent)
      (MessageFields : List Field)

/-- Projection `field.GoName`. -/
def Field.GoName : Field → String
  | .mk n _ _ _ _ => n

/-- Projection `field.Desc`. -/
def Field.Desc : Field → FieldDesc
  | .mk _ d _ _ _ => d

/-- Projection `field.Enum.GoIdent`. -/
def Field.Enum : Field → GoIdent
  | .mk _ _ e _ _ => e

/-- Projection `field.Message.GoIdent`. -/
def Field.Message : Field → GoIdent
  | .mk _ _ _ m _ => m

/-- Projection `field.Message.Fields`. -/
def Field.MessageFields : Field → List Field
  | .mk _ _ _ _ fs => fs

/-- The part of `protogen.GeneratedFile` the conversion code observes: the text
`QualifiedGoIdent` returns for an identifier (the bare name inside the own
package of the file, `pkg.Name` otherwise). -/
structure GeneratedFile where
  QualifiedGoIdent : GoIdent → String

/-- The caches of `BimaPlugin`. -/
structure BimaPlugin where
  modelExports : List (String × Bool)
  modelTypes : List (String × structFields)

/-! ## String helpers -/

/-- The call `g.P(parts...)` prints its arguments one after the other on one line. -/
def P (parts : List String) : String := parts.foldr (fun a b => a ++ b) ""

/-- The call `strings.Split(s, sep)` for a one-character separator, on the
characters of `s`. -/
def splitChar (sep : Char) : List Char → List (List Char)
  | [] => [[]]
  | c :: cs =>
    if c = sep then [] :: splitChar sep cs
    else match splitChar sep cs with
      | [] => [[c]]
      | seg :: segs => (c :: seg) :: segs

/-- The expression `parts[len(parts)-1]` for `parts := strings.Split(s, ".")`. -/
def lastPart (s : String) : String := String.mk ((splitChar '.' s.data).getLastD [])

/-- The slice `s[1:]`, evaluated by the source only on a non-empty `s`. -/
def dropFirst (s : String) : String := String.mk (s.data.drop 1)

/-- The function `parseType`: a leading `*` is split off into the pointer flag. -/
def parseType (str : String) : String × Bool :=
  match str.data with
  | '*' :: rest => (String.mk rest, true)
  | _ => (str, false)

/-- The function `toLowerFirst`: `strings.ToLower(str[:1]) + str[1:]`.  The slice
`str[:1]` of an empty string is out of range, which is the result `none`. -/
def toLowerFirst (str : String) : Option String :=
  match str.data with
  | [] => none
  | c :: rest => some (String.mk (c.toLower :: rest))

/-! ## The wire Go type of a field -/

/-- The function `fieldGoType`: the Go type of a message field and whether it
is held through a pointer.  A map field reads the key and the value field of
its entry message; indexing a shorter field list is out of range (`none`). -/
def fieldGoType (g : GeneratedFile) : Field → Option (String × Bool)
  | .mk _ Desc Enum Message MessageFields =>
    if Desc.IsWeak then some ("struct\x7b\x7d", false)
    else
      let pointer := Desc.HasPresence
      let r : String × Bool :=
        match Desc.Kind with
        | .BoolKind => ("bool", pointer)
        | .EnumKind => (g.QualifiedGoIdent Enum, pointer)
        | .Int32Kind | .Sint32Kind | .Sfixed32Kind => ("int32", pointer)
        | .Uint32Kind | .Fixed32Kind => ("uint32", pointer)
        | .Int64Kind | .Sint64Kind | .Sfixed64Kind => ("int64", pointer)
        | .Uint64Kind | .Fixed64Kind => ("uint64", pointer)
        | .FloatKind => ("float32", pointer)
        | .DoubleKind => ("float64", pointer)
        | .StringKind => ("string", pointer)
        | .BytesKind => ("[]byte", false)
        | .MessageKind | .GroupKind => ("*" ++ g.QualifiedGoIdent Message, false)
      if Desc.IsList then some ("[]" ++ r.1, false)
      else if Desc.IsMap then
        match MessageFields with
        | k :: v :: _ =>
          match fieldGoType g k, fieldGoType g v with
          | some (keyType, _), some (valType, _) =>
            some ("map[" ++ keyType ++ "]" ++ valType, false)
          | _, _ => none
        | _ => none
      else some r

/-! ## The rule engine -/

/-- What one call of `genFieldConversion` produces: the lines printed with
`g.P`, the error passed to `p.Error` (each path reports at most one and returns),
and the warnings printed with `println`. -/
structure Emit where
  lines : List String
  err : Option String
  warn : List String
  deriving DecidableEq, Repr

/-- The text of the warning printed for a well-known wrapper field whose model
type is neither an SQL-null wrapper nor a pointer. -/
def wrapperWarning (fieldName modelName : String) : String :=
  "Warning: Please change protobuf type message\x27s field regarding type of " ++ fieldName ++
    " on model " ++ modelName

/-- The method `BimaPlugin.genFieldConversion` (its unused parameter `m` is
left out): the statements for one field, `toX = true` for Bundle (model to
message) and `toX = false` for Bind (message to model).  The result `none`
stands for a run-time panic of the generator. -/
def genFieldConversion (p : BimaPlugin) (g : GeneratedFile) (field : Field)
    (model : GoIdent) (toX : Bool) : Option Emit :=
  match fieldGoType g field with
  | none => none
  | some (goType, wirePointer) =>
  let fieldType := if wirePointer then "*" ++ goType else goType
  let fieldName := field.GoName
  match lookup model.GoName p.modelTypes with
  | none =>
    some ⟨[], some "Something went wrong, please ask the author about this error", []⟩
  | some structFields =>
  if field.Desc.IsList then
    some ⟨[], none, []⟩
  else if field.Desc.hasMessage then
    let pbType := lastPart fieldType
    match lookup fieldName structFields with
    | none => some ⟨[], none, []⟩
    | some typeStr =>
      let coreType := (parseType typeStr).1
      let pointer := (parseType typeStr).2
      match lookup pbType wellKnownTypes with
      | some pbFieldType =>
        if toX then
          match lookup coreType sqlTypes with
          | some v =>
            if pointer then
              some ⟨[], some (P ["type ", typeStr, " is not supported"]), []⟩
            else
              some ⟨[P ["if from.", fieldName, ".Valid \x7b"],
                     P ["to.", fieldName, " = &", dropFirst fieldType, "\x7bValue: from.",
                        fieldName, ".", v, "\x7d"],
                     P ["\x7d"]], none, []⟩
          | none =>
            if pointer then
              some ⟨[P ["if from.", fieldName, " != nil \x7b"],
                     P ["to.", fieldName, " = &", dropFirst fieldType, "\x7bValue: *from.",
                        fieldName, "\x7d"],
                     P ["\x7d"]], none, []⟩
            else
              some ⟨[], none, [wrapperWarning fieldName model.GoName]⟩
        else
          match lookup coreType sqlTypes with
          | some v =>
            if pointer then
              some ⟨[], some (P ["type ", typeStr, " is not supported"]), []⟩
            else
              let r := "from." ++ fieldName ++ ".Value"
              let r := coreType ++ "\x7b" ++ v ++ ": " ++ r ++ ", Valid: true\x7d"
              some ⟨[P ["if from.", fieldName, " != nil \x7b"],
                     P ["to.", fieldName, " = ", r],
                     P ["\x7d"]], none, []⟩
          | none =>
            if pointer then
              let r := "from." ++ fieldName ++ ".Value"
              if coreType = "string" ∨ coreType = "bool" then
                some ⟨[P ["if from.", fieldName, " != nil \x7b"],
                       P ["to.", fieldName, " = ", "&" ++ r],
                       P ["\x7d"]], none, []⟩
              else if pbFieldType = coreType then
                some ⟨[P ["if from.", fieldName, " != nil \x7b"],
                       P ["to.", fieldName, " = ", "&" ++ r],
                       P ["\x7d"]], none, []⟩
              else
                match toLowerFirst fieldName with
                | none => none
                | some lower =>
                  some ⟨[P ["if from.", fieldName, " != nil \x7b"],
                         P [lower, " := ", coreType, "(", r, ")"],
                         P ["to.", fieldName, " = ", "&" ++ lower],
                         P ["\x7d"]], none, []⟩
            else
              some ⟨[], none, [wrapperWarning fieldName model.GoName]⟩
      | none =>
        if pbType = "Timestamp" then
          if toX then
            match lookup coreType sqlTypes with
            | some _ =>
              if coreType ≠ "sql.NullTime" then
                some ⟨[], some (P ["type ", typeStr, " is not to be used for Timestamp"]), []⟩
              else if pointer then
                some ⟨[], some (P ["type ", typeStr, " is not supported"]), []⟩
              else
                some ⟨[P ["if from.", fieldName, ".Valid \x7b"],
                       P ["to.", fieldName, ", _ = ", "ptypes.TimestampProto(from.", fieldName,
                          ".Time)"],
                       P ["\x7d"]], none, []⟩
            | none =>
              if coreType ≠ "time.Time" then
                some ⟨[], some (P ["type ", typeStr, " is not to be used for Timestamp"]), []⟩
              else if pointer then
                some ⟨[P ["if from.", fieldName, " != nil \x7b"],
                       P ["to.", fieldName, ", _ = ", "ptypes.TimestampProto(*from.", fieldName,
                          ")"],
                       P ["\x7d"]], none, []⟩
              else
                some ⟨[P ["to.", fieldName, ", _ = ", "ptypes.TimestampProto(from.", fieldName,
                          ")"]], none, []⟩
          else
            let opened := [P ["if from.", fieldName, " != nil \x7b"],
                           P ["if from.", fieldName, ".IsValid() \x7b"]]
            match lookup coreType sqlTypes with
            | some _ =>
              if coreType ≠ "sql.NullTime" then
                some ⟨opened,
                      some (P ["type ", typeStr, " is not to be used for Timestamp"]), []⟩
              else if pointer then
                some ⟨opened, some (P ["type ", typeStr, " is not supported"]), []⟩
              else
                some ⟨opened ++
                      [P ["to.", fieldName, " = ", coreType, "\x7bTime: from.", fieldName,
                          ".AsTime(), Valid: true\x7d"],
                       P ["\x7d"], P ["\x7d"]], none, []⟩
            | none =>
              if coreType ≠ "time.Time" then
                some ⟨opened,
                      some (P ["type ", typeStr, " is not to be used for Timestamp"]), []⟩
              else if pointer then
                some ⟨opened ++
                      [P ["t := from.", fieldName, ".AsTime()"],
                       P ["to.", fieldName, " = &t"],
                       P ["\x7d"], P ["\x7d"]], none, []⟩
              else
                some ⟨opened ++
                      [P ["to.", fieldName, " = from.", fieldName, ".AsTime()"],
                       P ["\x7d"], P ["\x7d"]], none, []⟩
        else
          some ⟨[], none, []⟩
  else
    match lookup fieldName structFields with
    | some typeStr =>
      let coreType := (parseType typeStr).1
      let pointer := (parseType typeStr).2
      if coreType = "string" ∨ coreType = "bool" then
        if pointer then
          if toX then
            some ⟨[P ["to.", fieldName, " = *from.", fieldName]], none, []⟩
          else
            some ⟨[P ["to.", fieldName, " = &from.", fieldName]], none, []⟩
        else
          some ⟨[P ["to.", fieldName, " = from.", fieldName]], none, []⟩
      else if fieldType = coreType then
        some ⟨[P ["to.", fieldName, " = from.", fieldName]], none, []⟩
      else
        match lookup coreType sqlTypes with
        | some v =>
          let v := if v = "Time" then "time.Time" else v
          match toLowerFirst v with
          | none => none
          | some lower =>
            some ⟨[], none,
              ["Warning: Please change field " ++ fieldName ++ " on model " ++ model.GoName ++
                " to " ++ lower ++ " type, it wouldn\x27t benefit anything"]⟩
        | none =>
          if toX then
            if pointer then
              some ⟨[P ["to.", fieldName, " = ", fieldType, "(*from.", fieldName, ")"]], none, []⟩
            else
              some ⟨[P ["to.", fieldName, " = ", fieldType, "(from.", fieldName, ")"]], none, []⟩
          else
            if pointer then
              match toLowerFirst fieldName with
              | none => none
              | some lower =>
                some ⟨[P [lower, " := ", coreType, "(from.", fieldName, ")"],
                       P ["to.", fieldName, " = &", lower]], none, []⟩
            else
              some ⟨[P ["to.", fieldName, " = ", coreType, "(from.", fieldName, ")"]], none, []⟩
    | none =>
      if fieldName = "Id" then
        some ⟨[P ["to.Id = from.Id"]], none, []⟩
      else
        some ⟨[], none, []⟩

/-! ## Meaning of the SQL-null plan

The statements generated for a well-known wrapper field bound to an SQL-null
wrapper type, with the effect of running them.  On the message side the field
is `nil` or points to a wrapper carrying `Value`; on the model side it is a
value member together with the flag `Valid`. -/

/-- A model field of an SQL-null wrapper type. -/
structure NullValue (α : Type) where
  value : α
  Valid : Bool

/-- The two sides of one field: the message side and the model side. -/
structure FieldState (α : Type) where
  wire : Option α
  model : NullValue α

/-- The guarded assignments of the SQL-null plan: `wrap F W v` is
`if from.F.Valid { to.F = &W{Value: from.F.v} }`, and `unwrap F T v` is
`if from.F != nil { to.F = T{v: from.F.Value, Valid: true} }`. -/
inductive NullStmt where
  | wrap (F W v : String)
  | unwrap (F T v : String)

/-- The lines of a statement as they are printed. -/
def NullStmt.render : NullStmt → List String
  | .wrap F W v =>
    [P ["if from.", F, ".Valid \x7b"],
     P ["to.", F, " = &", W, "\x7bValue: from.", F, ".", v, "\x7d"],
     P ["\x7d"]]
  | .unwrap F T v =>
    [P ["if from.", F, " != nil \x7b"],
     P ["to.", F, " = ", T, "\x7b", v, ": from.", F, ".Value, Valid: true\x7d"],
     P ["\x7d"]]

/-- Running a statement under Go assignment semantics.  In `wrap` the source
`from` is the model and the target `to` the message; in `unwrap` the source is
the message and the target the model. -/
def NullStmt.run {α : Type} : NullStmt → FieldState α → FieldState α
  | .wrap _ _ _, s => if s.model.Valid then { s with wire := some s.model.value } else s
  | .unwrap _ _ _, s =>
    match s.wire with
    | some x => { s with model := ⟨x, true⟩ }
    | none => s

/-! ## Sample inputs -/

/-- The call `path.Base` on a slash-separated import path: its last element. -/
def pathBase (s : String) : String := String.mk ((splitChar '/' s.data).getLastD [])

/-- A generated file of import path `own`: an identifier of that import path is
printed bare, any other as `pkg.Name` with `pkg` the last element of its path. -/
def fileOf (own : String) : GeneratedFile :=
  ⟨fun id => if id.GoImportPath = own then id.GoName
    else pathBase id.GoImportPath ++ "." ++ id.GoName⟩

/-- The generated file of a schema in `example.com/todo/protos`. -/
def sampleFile : GeneratedFile := fileOf "example.com/todo/protos"

/-- The model `example.com/todo/models;Todo`. -/
def todoModel : GoIdent := ⟨"Todo", "example.com/todo/models"⟩

/-- A plugin whose cache holds the field map `sf` for the model `Todo`. -/
def pluginWith (sf : structFields) : BimaPlugin := ⟨[], [("Todo", sf)]⟩

/-- A singular field of a scalar kind, without presence; its enum and message
identifiers are not read. -/
def scalarField (name : String) (kind : Kind) : Field :=
  .mk name ⟨false, false, kind, Cardinality.singular⟩ ⟨"", ""⟩ ⟨"", ""⟩ []

/-- A singular field of message kind whose message type is `ident`. -/
def messageField (name : String) (ident : GoIdent) : Field :=
  .mk name ⟨false, true, Kind.MessageKind, Cardinality.singular⟩ ⟨"", ""⟩ ident []

/-- The identifier of a well-known wrapper message. -/
def wrapperIdent (name : String) : GoIdent :=
  ⟨name, "google.golang.org/protobuf/types/known/wrapperspb"⟩

/-- The identifier of `google.protobuf.Timestamp`. -/
def timestampIdent : GoIdent :=
  ⟨"Timestamp", "google.golang.org/protobuf/types/known/timestamppb"⟩

/-- The field `map<string, google.protobuf.Timestamp> schedule` of message `Todo`:
a map field is of message kind, its message being the entry with the fields
`key` and `value`. -/
def scheduleField : Field :=
  .mk "Schedule" ⟨false, false, Kind.MessageKind, Cardinality.map⟩ ⟨"", ""⟩
    ⟨"Todo_ScheduleEntry", "example.com/todo/protos"⟩
    [scalarField "Key" Kind.StringKind, messageField "Value" timestampIdent]

/-! ## The source of a model (`go/ast`, `go/parser`, `strcase`) -/

/-- The assignment `m[k] = v` on a Go map: the entry of `k` is replaced, or added
when the key is new. -/
def insert {α : Type} (k : String) (v : α) : List (String × α) → List (String × α)
  | [] => [(k, v)]
  | (k', v') :: rest => if k = k' then (k, v) :: rest else (k', v') :: insert k v rest

/-- The type expression of a struct field (`ast.Expr`).  In a type the parser
builds a selector only as `pkg.Name`, so the `X` of a `SelectorExpr` is the name
of an identifier; `ArrayType` and `other` stand for the shapes the generator
does not look into (arrays, maps, functions, ...). -/
inductive TypeExpr where
  | Ident (Name : String)
  | StarExpr (X : TypeExpr)
  | SelectorExpr (X : String) (Sel : String)
  | ArrayType (Elt : TypeExpr)
  | other
  deriving DecidableEq, Repr

/-- A field declaration of a struct (`ast.Field`): its names (none for an
embedded field) and its type `field.Type`. -/
structure AstField where
  Names : List String
  Typ : TypeExpr
  deriving DecidableEq, Repr

/-- The type of a type declaration: a struct with its field list, or anything else. -/
inductive SpecType where
  | StructType (Fields : List AstField)
  | other
  deriving DecidableEq, Repr

/-- A specification inside a general declaration (`ast.Spec`). -/
inductive Spec where
  | TypeSpec (Name : String) (Typ : SpecType)
  | other
  deriving DecidableEq, Repr

/-- A top-level declaration (`ast.Decl`). -/
inductive Decl where
  | GenDecl (Specs : List Spec)
  | other
  deriving DecidableEq, Repr

/-- A parsed source file (`ast.File`). -/
structure AstFile where
  Decls : List Decl
  deriving DecidableEq, Repr

/-- The result `(f, err)` of `parser.ParseFile`: when the source cannot be read
the file is nil and the error is set; otherwise the file is not nil, and the
error is set when syntax errors were found. -/
inductive ParseResult where
  | unreadable (err : String)
  | parsed (file : AstFile) (err : Option String)
  deriving DecidableEq, Repr

/-- What a run of the generator takes from outside the repository: the parser
on the file system (`parser.ParseFile`) and `strcase.ToSnake`. -/
structure Env where
  ParseFile : String → ParseResult
  ToSnake : String → String

/-- The expression `filename[i+1:]` for `i := strings.Index(filename, "/")`:
`none` when there is no `/` (`i < 0`). -/
def afterSlash : List Char → Option (List Char)
  | [] => none
  | c :: cs => if c = '/' then some cs else afterSlash cs

/-- The state of the retry loop of `walkModelFields` when it is left: the
variables `astFile` and `err`, and the file names handed to the parser, in
order. -/
structure Search where
  astFile : Option AstFile
  err : Option String
  parsed : List String
  deriving DecidableEq, Repr

/-- The loop `for astFile == nil && len(strings.Split(filename, "/")) > 1` of
`walkModelFields`, entered with `astFile == nil`.  Each round hands `filename`
to the parser and leaves the loop when a file comes back; otherwise it strips
the leading path segment.  The number `fuel` bounds the number of rounds;
`none` means the bound was too small. -/
def searchLoop (ParseFile : String → ParseResult) :
    Nat → String → Option String → List String → Option Search
  | 0, _, _, _ => none
  | fuel + 1, filename, err, parsed =>
    if 1 < (splitChar '/' filename.data).length then
      match ParseFile filename with
      | .parsed file e => some ⟨some file, e, parsed ++ [filename]⟩
      | .unreadable e =>
        match afterSlash filename.data with
        | some rest => searchLoop ParseFile fuel (String.mk rest) (some e) (parsed ++ [filename])
        | none => some ⟨none, some e, parsed ++ [filename]⟩
    else some ⟨none, err, parsed⟩

/-- The string stored for a field type by the switch on `field.Type` in
`walkModelFields`; `none` when no case of the switch applies. -/
def fieldTypeString : TypeExpr → Option String
  | .Ident name => some name
  | .StarExpr (.Ident name) => some ("*" ++ name)
  | .StarExpr (.SelectorExpr x sel) => some ("*" ++ x ++ "." ++ sel)
  | .StarExpr _ => none
  | .SelectorExpr x sel => some (x ++ "." ++ sel)
  | _ => none

/-- The loop `for _, name := range field.Names` of `walkModelFields`. -/
def addNames (typ : TypeExpr) : List String → structFields → structFields
  | [], sf => sf
  | name :: names, sf =>
    match fieldTypeString typ with
    | some s => addNames typ names (insert name s sf)
    | none => addNames typ names sf

/-- The loop `for _, field := range st.Fields.List` of `walkModelFields`. -/
def addFields : List AstField → structFields → structFields
  | [], sf => sf
  | field :: fields, sf => addFields fields (addNames field.Typ field.Names sf)

/-- The loop over the specifications of one declaration: the fields of the
first struct type declared under the name `GoName`. -/
def findInSpecs (GoName : String) : List Spec → Option (List AstField)
  | [] => none
  | .TypeSpec name (.StructType fields) :: rest =>
    if name = GoName then some fields else findInSpecs GoName rest
  | _ :: rest => findInSpecs GoName rest

/-- The loop `for _, decl := range astFile.Decls` of `walkModelFields`. -/
def findInDecls (GoName : String) : List Decl → Option (List AstField)
  | [] => none
  | .GenDecl specs :: rest =>
    match findInSpecs GoName specs with
    | some fields => some fields
    | none => findInDecls GoName rest
  | _ :: rest => findInDecls GoName rest

/-- What one call of `walkModelFields` produces: the returned flag, the plugin
state after the call, the file names handed to the parser, the error passed
to `p.Error` and the warnings printed with `println`. -/
structure WalkResult where
  ok : Bool
  plugin : BimaPlugin
  parsed : List String
  err : Option String
  warn : List String

/-- The first candidate file name of a model: `<importPath>/<snake_case(name)>.go`. -/
def modelFilename (env : Env) (model : GoIdent) : String :=
  model.GoImportPath ++ "/" ++ env.ToSnake model.GoName ++ ".go"

/-- The method `BimaPlugin.walkModelFields`.  The result `none` stands for a
run-time panic (reading `astFile.Decls` of a nil file) or a retry loop left
unfinished; neither happens, see `walkModelFields_total`. -/
def walkModelFields (env : Env) (p : BimaPlugin) (model : GoIdent) : Option WalkResult :=
  let filename := modelFilename env model
  let origin := filename
  match lookup model.GoName p.modelTypes with
  | some _ => some ⟨true, p, [], none, []⟩
  | none =>
    match searchLoop env.ParseFile (filename.length + 1) filename none [] with
    | none => none
    | some s =>
      match s.err with
      | some e => some ⟨false, p, s.parsed, some e, []⟩
      | none =>
        match s.astFile with
        | none => none
        | some astFile =>
          match findInDecls model.GoName astFile.Decls with
          | some fields =>
            some ⟨true, { p with modelTypes := insert model.GoName (addFields fields [])
                                                  p.modelTypes },
              s.parsed, none, []⟩
          | none =>
            some ⟨false, p, s.parsed, none,
              ["couldn\x27t find type " ++ model.GoName ++ " in " ++ origin]⟩

/-! ## The binding emitter -/

/-- A field of a message together with its proto name `field.Desc.Name()`. -/
structure MessageField where
  Name : String
  field : Field

/-- The type `protogen.Message`: its Go identifier, its fields, and the `model`
string of its bima option when the message carries the option
(`getMessageOptions(m) != nil`). -/
structure Message where
  GoIdent : GoIdent
  Fields : List MessageField
  Opts : Option String

/-- The expression `(opt[:i], opt[i+1:])` for `i := strings.Index(opt, sep)`;
`none` when `sep` does not occur. -/
def cutAt (sep : Char) : List Char → Option (List Char × List Char)
  | [] => none
  | c :: cs =>
    if c = sep then some ([], cs)
    else match cutAt sep cs with
      | some (a, b) => some (c :: a, b)
      | none => none

/-- The function `getModelIdent`: the model `path;Name` of a message. -/
def getModelIdent (m : Message) : Option GoIdent :=
  let opt := m.Opts.getD ""
  if opt ≠ "" then
    match cutAt ';' opt.data with
    | some (path, name) => some ⟨String.mk name, String.mk path⟩
    | none => none
  else none

/-- What a generator method produces: the plugin state after the call, the
lines printed with `g.P`, the errors passed to `p.Error` (of which the host
plugin keeps the first), the warnings printed with `println`, and the file
names handed to the parser. -/
structure Gen where
  plugin : BimaPlugin
  lines : List String
  errors : List String
  warn : List String
  parsed : List String

/-- The reading `p.modelExports[name]` of a `map[string]bool`. -/
def modelExported (p : BimaPlugin) (name : String) : Bool :=
  (lookup name p.modelExports).getD false

/-- The method `BimaPlugin.genModelExport`: the plugin state after the call and
the lines printed. -/
def genModelExport (g : GeneratedFile) (p : BimaPlugin) (model : GoIdent) :
    BimaPlugin × List String :=
  if !modelExported p model.GoName then
    ({ p with modelExports := insert model.GoName true p.modelExports },
      [P ["type ", model.GoName, "Model = ", g.QualifiedGoIdent model], P []])
  else (p, [])

/-- The loop `for _, f := range m.Fields { p.genFieldConversion(g, m, f, model, toX) }`:
the lines, errors and warnings of all fields, in order. -/
def genFields (p : BimaPlugin) (g : GeneratedFile) (model : GoIdent) (toX : Bool) :
    List MessageField → Option (List String × List String × List String)
  | [] => some ([], [], [])
  | f :: fs =>
    match genFieldConversion p g f.field model toX with
    | none => none
    | some e =>
      match genFields p g model toX fs with
      | none => none
      | some (ls, es, ws) => some (e.lines ++ ls, e.err.toList ++ es, e.warn ++ ws)

/-- The method `BimaPlugin.genToModelFunc`. -/
def genToModelFunc (g : GeneratedFile) (m : Message) (model : GoIdent) : List String :=
  [P ["func (x *", g.QualifiedGoIdent m.GoIdent, ") ToModel() ", g.QualifiedGoIdent model,
      " \x7b"],
   P ["v := ", g.QualifiedGoIdent model, "\x7b\x7d"],
   P ["x.Bind(&v)"],
   P ["return v"],
   P ["\x7d"],
   P []]

/-- The method `BimaPlugin.genBindFunc`. -/
def genBindFunc (env : Env) (p : BimaPlugin) (g : GeneratedFile) (m : Message)
    (model : GoIdent) : Option Gen :=
  match walkModelFields env p model with
  | none => none
  | some r =>
    if r.ok then
      match genFields r.plugin g model false m.Fields with
      | none => none
      | some (ls, es, ws) =>
        some ⟨r.plugin,
          [P ["func (x *", g.QualifiedGoIdent m.GoIdent, ") Bind(v *",
              g.QualifiedGoIdent model, ") \x7b"],
           P ["to, from := v, x"]] ++ ls ++ [P ["\x7d"], P []] ++ genToModelFunc g m model,
          r.err.toList ++ es, r.warn ++ ws, r.parsed⟩
    else some ⟨r.plugin, [], r.err.toList, r.warn, r.parsed⟩

/-- The method `BimaPlugin.genBundleFunc`. -/
def genBundleFunc (env : Env) (p : BimaPlugin) (g : GeneratedFile) (m : Message)
    (model : GoIdent) : Option Gen :=
  match walkModelFields env p model with
  | none => none
  | some r =>
    if r.ok then
      match genFields r.plugin g model true m.Fields with
      | none => none
      | some (ls, es, ws) =>
        some ⟨r.plugin,
          [P ["func (x *", g.QualifiedGoIdent m.GoIdent, ") Bundle(v *",
              g.QualifiedGoIdent model, ") \x7b"],
           P ["to, from := x, v"]] ++ ls ++ [P ["\x7d"], P []],
          r.err.toList ++ es, r.warn ++ ws, r.parsed⟩
    else some ⟨r.plugin, [], r.err.toList, r.warn, r.parsed⟩

/-! ## The response envelope emitter -/

/-- The statuses of the success group. -/
def status200 : List String := ["StatusOK", "StatusCreated", "StatusNoContent"]

/-- The statuses of the failure group. -/
def status400 : List String := ["StatusBadRequest", "StatusNotFound"]

/-- The match of the regular expression `Response$`: the name ends in `Response`. -/
def matchResponse (name : String) : Bool := "Response".data.isSuffixOf name.data

/-- The match of the regular expression `PaginatedResponse$`. -/
def matchPaginatedResponse (name : String) : Bool :=
  "PaginatedResponse".data.isSuffixOf name.data

/-- The loop `for _, status := range status200` of `genResponseStatusMethod`,
with `M` and `R` the printed identifiers of the message and of the response. -/
def successMethods (M R : String) : List String → List String
  | [] => []
  | status :: rest =>
    [P ["func (x *", M, ") ", R, status, "() (*", R, ", error) \x7b"],
     P ["return &", R, "\x7b"],
     P ["Code: http.", status, ","]] ++
    (if status ≠ "StatusNoContent" then [P ["Data: x,"]] else []) ++
    [P ["\x7d, nil"], P ["\x7d"], P []] ++ successMethods M R rest

/-- The loop `for _, status := range status400` of `genResponseStatusMethod`. -/
def failureMethods (M R : String) : List String → List String
  | [] => []
  | status :: rest =>
    [P ["func (x *", M, ") ", R, status, "(err error) (*", R, ", error) \x7b"],
     P ["return &", R, "\x7b"],
     P ["Code: http.", status, ","],
     P ["Data: x,"],
     P ["Message: err.Error(),"],
     P ["\x7d, nil"], P ["\x7d"], P []] ++ failureMethods M R rest

/-- The test `field.Desc.Name() == "data" && field.Message == m && !field.Desc.IsList()`
of `genResponseStatusMethod`.  The message of a field is compared by its Go
identifier; a field that is not of message kind has no message. -/
def isDataFieldOf (m : Message) (f : MessageField) : Bool :=
  f.Name = "data" && (f.field.Desc.hasMessage && f.field.Message = m.GoIdent) &&
    !f.field.Desc.IsList

/-- The loop `for _, field := range msg.Fields` of `genResponseStatusMethod`. -/
def methodsOfFields (g : GeneratedFile) (m msg : Message) : List MessageField → List String
  | [] => []
  | f :: fs =>
    (if isDataFieldOf m f then
      successMethods (g.QualifiedGoIdent m.GoIdent) (g.QualifiedGoIdent msg.GoIdent) status200 ++
      failureMethods (g.QualifiedGoIdent m.GoIdent) (g.QualifiedGoIdent msg.GoIdent) status400
     else []) ++ methodsOfFields g m msg fs

/-- The method `BimaPlugin.genResponseStatusMethod`: the lines printed. -/
def genResponseStatusMethod (g : GeneratedFile) (m : Message) : List Message → List String
  | [] => []
  | msg :: ms =>
    (if matchResponse msg.GoIdent.GoName then methodsOfFields g m msg msg.Fields else []) ++
      genResponseStatusMethod g m ms

/-- The loop `for _, status := range status200` of `genResponseStatusFunc`, with
`R` the printed identifier of the response, `p` the pointer marker and `T` the
printed identifier of the payload. -/
def successFuncs (R p T : String) : List String → List String
  | [] => []
  | status :: rest =>
    [P ["func ", R, status, "(d ", p, T, ") (*", R, ", error) \x7b"],
     P ["return &", R, "\x7b"],
     P ["Code: http.", status, ","]] ++
    (if status ≠ "StatusNoContent" then [P ["Data: d,"]] else []) ++
    [P ["\x7d, nil"], P ["\x7d"], P []] ++ successFuncs R p T rest

/-- The loop `for _, status := range status400` of `genResponseStatusFunc`;
`paginated` is the match of `PaginatedResponse$` on the name of the response. -/
def failureFuncs (R p T : String) (paginated : Bool) : List String → List String
  | [] => []
  | status :: rest =>
    [P ["func ", R, status, "(d ", p, T, ", err error) (*", R, ", error) \x7b"],
     P ["return &", R, "\x7b"],
     P ["Code: http.", status, ","],
     P ["Data: d,"]] ++
    (if !paginated then [P ["Message: err.Error(),"]] else []) ++
    [P ["\x7d, nil"], P ["\x7d"], P []] ++ failureFuncs R p T paginated rest

/-- The loop `for _, field := range m.Fields` of `genResponseStatusFunc`. -/
def funcsOfFields (g : GeneratedFile) (m : Message) : List MessageField → List String
  | [] => []
  | f :: fs =>
    (if f.Name = "data" then
      if f.field.Desc.hasMessage then
        let p := if f.field.Desc.IsList then "[]*" else "*"
        successFuncs (g.QualifiedGoIdent m.GoIdent) p (g.QualifiedGoIdent f.field.Message)
            status200 ++
          failureFuncs (g.QualifiedGoIdent m.GoIdent) p (g.QualifiedGoIdent f.field.Message)
            (matchPaginatedResponse m.GoIdent.GoName) status400
      else []
     else []) ++ funcsOfFields g m fs

/-- The method `BimaPlugin.genResponseStatusFunc`: the lines printed. -/
def genResponseStatusFunc (g : GeneratedFile) (m : Message) : List String :=
  funcsOfFields g m m.Fields

/-! ## Files and the run -/

/-- An import of a schema file (`protoreflect.FileImport`). -/
structure FileImport where
  Path : String
  IsPublic : Bool
  IsWeak : Bool

/-- The type `protogen.File`: `ProtoName` is `*f.Proto.Name`, `DescPath` is
`f.Desc.Path()`, `Dependency` is `f.Proto.Dependency` and `Imports` is
`f.Desc.Imports()`. -/
structure ProtoFile where
  ProtoName : String
  DescPath : String
  Generate : Bool
  Dependency : List String
  GeneratedFilenamePrefix : String
  GoImportPath : String
  GoPackageName : String
  Imports : List FileImport
  Messages : List Message

/-- The type `fileInfo`. -/
structure fileInfo where
  File : ProtoFile
  hasTimestamp : Bool

/-- The function `newFileInfo`. -/
def newFileInfo (file : ProtoFile) (hasTimestamp : Bool) : fileInfo := ⟨file, hasTimestamp⟩

/-- The type `protogen.Plugin` as the generator reads it: the files of the
request in order, the version of the compiler (`Request.GetCompilerVersion()`),
and `NewGeneratedFile(filename, goImportPath)`. -/
structure Plugin where
  Files : List ProtoFile
  CompilerVersion : Option (Nat × Nat × Nat)
  NewGeneratedFile : String → String → GeneratedFile

/-- The reading `p.FilesByPath[path]`. -/
def Plugin.FilesByPath (plugin : Plugin) (path : String) : Option ProtoFile :=
  plugin.Files.find? (fun f => f.DescPath = path)

/-- The variable `GenerateVersionMarkers`. -/
def GenerateVersionMarkers : Bool := true

/-- The constants `Major`, `Minor`, `Patch` of the package `version`. -/
def versionNumbers : Nat × Nat × Nat := (1, 0, 0)

/-- The constant `PreRelease` of the package `version`. -/
def PreRelease : String := ""

/-- The function `version.String` (its `metadata` is always empty). -/
def versionString : String :=
  let v := "v" ++ toString versionNumbers.1 ++ "." ++ toString versionNumbers.2.1 ++ "." ++
    toString versionNumbers.2.2
  if PreRelease ≠ "" then v ++ "-" ++ PreRelease else v

/-- The method `BimaPlugin.genGeneratedHeader`. -/
def genGeneratedHeader (plugin : Plugin) (f : ProtoFile) : List String :=
  [P ["// Code generated by protoc-gen-bima. DO NOT EDIT."]] ++
  (if GenerateVersionMarkers then
    let protocVersion :=
      match plugin.CompilerVersion with
      | some (major, minor, patch) =>
        "v" ++ toString major ++ "." ++ toString minor ++ "." ++ toString patch
      | none => "(unknown)"
    [P ["// versions:"],
     P ["// \tprotoc-gen-bima ", versionString],
     P ["// \tprotoc          ", protocVersion],
     P ["// source: ", f.DescPath]]
   else []) ++
  [P []]

/-- The method `BimaPlugin.genImport`: the lines printed (the registration of
the import with `g.Import` leaves no line). -/
def genImport (plugin : Plugin) (file : ProtoFile) (imp : FileImport) : List String :=
  match plugin.FilesByPath imp.Path with
  | none => []
  | some impFile =>
    if impFile.GoImportPath = file.GoImportPath then []
    else if !imp.IsPublic then []
    else [P []]

/-- The loop over `file.Desc.Imports()` of `generateFile`. -/
def genImports (plugin : Plugin) (file : ProtoFile) : List FileImport → List String
  | [] => []
  | imp :: imps => genImport plugin file imp ++ genImports plugin file imps

/-- The method `BimaPlugin.genWeakTimestamp`. -/
def genWeakTimestamp (f : fileInfo) : List String :=
  if f.hasTimestamp then [P ["type _ timestamp.Timestamp"], P []] else []

/-- The body of the loop `for _, m := range file.Messages` of `generateFile`
for one message. -/
def genMessage (env : Env) (p : BimaPlugin) (g : GeneratedFile) (f : fileInfo)
    (m : Message) : Option Gen :=
  let bound : Option Gen :=
    match getModelIdent m with
    | some mi =>
      let exported := genModelExport g p mi
      match genBindFunc env exported.1 g m mi with
      | none => none
      | some bind =>
        match genBundleFunc env bind.plugin g m mi with
        | none => none
        | some bundle =>
          some ⟨bundle.plugin,
            genWeakTimestamp f ++ exported.2 ++ bind.lines ++ bundle.lines,
            bind.errors ++ bundle.errors, bind.warn ++ bundle.warn,
            bind.parsed ++ bundle.parsed⟩
    | none => some ⟨p, [], [], [], []⟩
  match bound with
  | none => none
  | some b =>
    some ⟨b.plugin,
      b.lines ++ genResponseStatusMethod g m f.File.Messages ++
        (if matchResponse m.GoIdent.GoName then genResponseStatusFunc g m else []),
      b.errors, b.warn, b.parsed⟩

/-- The loop `for _, m := range file.Messages` of `generateFile`. -/
def genMessages (env : Env) (g : GeneratedFile) (f : fileInfo) :
    List Message → BimaPlugin → Option Gen
  | [], p => some ⟨p, [], [], [], []⟩
  | m :: ms, p =>
    match genMessage env p g f m with
    | none => none
    | some a =>
      match genMessages env g f ms a.plugin with
      | none => none
      | some b =>
        some ⟨b.plugin, a.lines ++ b.lines, a.errors ++ b.errors, a.warn ++ b.warn,
          a.parsed ++ b.parsed⟩

/-- The name of the file generated for a schema file. -/
def generatedFilename (file : ProtoFile) : String :=
  file.GeneratedFilenamePrefix ++ ".pb.bima.go"

/-- The method `BimaPlugin.generateFile`: the content of the generated file is
`lines` of the result. -/
def generateFile (env : Env) (plugin : Plugin) (p : BimaPlugin) (f : fileInfo) : Option Gen :=
  let file := f.File
  let g := plugin.NewGeneratedFile (generatedFilename file) file.GoImportPath
  match genMessages env g f file.Messages p with
  | none => none
  | some b =>
    some ⟨b.plugin,
      genGeneratedHeader plugin file ++ [P ["package ", file.GoPackageName], P []] ++
        genImports plugin file file.Imports ++ b.lines,
      b.errors, b.warn, b.parsed⟩

/-- The loop over `f.Proto.Dependency` of `inspect`. -/
def dependsOnTimestamp (deps : List String) : Bool :=
  deps.any (fun dep => dep = "google/protobuf/timestamp.proto")

/-- The method `BimaPlugin.inspect`, on the map `p.files`. -/
def inspect (files : List (String × fileInfo)) (f : ProtoFile) (m : Message) :
    List (String × fileInfo) :=
  if m.Opts.isSome then
    match lookup f.ProtoName files with
    | some _ => files
    | none => insert f.ProtoName (newFileInfo f (dependsOnTimestamp f.Dependency)) files
  else files

/-- The method `BimaPlugin.findMarkedFiles`: the map `p.files` it leaves, from
the empty map that `init` made. -/
def findMarkedFiles (plugin : Plugin) : List (String × fileInfo) :=
  plugin.Files.foldl
    (fun files f => if !f.Generate then files else f.Messages.foldl (fun fs m => inspect fs f m) files)
    []

/-- What a run produces: the generated files in the order of their creation,
each with its name and lines, and the errors, warnings and parser calls of the
run. -/
structure Run where
  plugin : BimaPlugin
  files : List (String × List String)
  errors : List String
  warn : List String
  parsed : List String

/-- The loop `for _, f := range p.files { p.generateFile(f) }` of `Generate`, on
the values of the map in the order in which the loop visits them. -/
def generateFiles (env : Env) (plugin : Plugin) : List fileInfo → BimaPlugin → Option Run
  | [], p => some ⟨p, [], [], [], []⟩
  | f :: fs, p =>
    match generateFile env plugin p f with
    | none => none
    | some a =>
      match generateFiles env plugin fs a.plugin with
      | none => none
      | some b =>
        some ⟨b.plugin, (generatedFilename f.File, a.lines) :: b.files, a.errors ++ b.errors,
          a.warn ++ b.warn, a.parsed ++ b.parsed⟩

/-- An order in which the loop `range p.files` may visit the marked files: Go
leaves the iteration order of a map unspecified, so every arrangement of the
values of the map is one. -/
def isRangeOrder (plugin : Plugin) (order : List fileInfo) : Prop :=
  List.Perm order ((findMarkedFiles plugin).map (fun e => e.2))

/-- The method `BimaPlugin.Generate`, called on the zero plugin as `main` does:
`init` makes the empty maps, `findMarkedFiles` fills `p.files`, and the files
are generated in the order `order` in which `range p.files` visits them.  The
reading of `go.mod` by `init`, which sets the unused `packageName` and may
print a warning, is left out. -/
def Generate (env : Env) (plugin : Plugin) (order : List fileInfo) : Option Run :=
  generateFiles env plugin order ⟨[], []⟩

/-! ## Sequences of calls on one plugin state -/

/-- A sequence of `genModelExport` calls on one plugin state, each with the
generated file it prints to: the state after the last call and the lines of
each call, in order. -/
def genModelExports : BimaPlugin → List (GeneratedFile × GoIdent) → BimaPlugin × List (List String)
  | p, [] => (p, [])
  | p, call :: calls =>
    ((genModelExports (genModelExport call.1 p call.2).1 calls).1,
      (genModelExport call.1 p call.2).2 :: (genModelExports (genModelExport call.1 p call.2).1 calls).2)

/-- The operations of the plugin that hand on a plugin state; `init` keeps the
maps of a state that has them. -/
inductive PluginOp where
  | init (plugin : Plugin)
  | walkModelFields (env : Env) (model : GoIdent)
  | genModelExport (g : GeneratedFile) (model : GoIdent)
  | genBindFunc (env : Env) (g : GeneratedFile) (m : Message) (model : GoIdent)
  | genBundleFunc (env : Env) (g : GeneratedFile) (m : Message) (model : GoIdent)
  | generateFile (env : Env) (plugin : Plugin) (f : fileInfo)

/-- The plugin state after an operation (the state is kept when the operation
does not return). -/
def PluginOp.apply (p : BimaPlugin) : PluginOp → BimaPlugin
  | .init _ => p
  | .walkModelFields env model => ((Bima.walkModelFields env p model).map (fun r => r.plugin)).getD p
  | .genModelExport g model => (Bima.genModelExport g p model).1
  | .genBindFunc env g m model => ((Bima.genBindFunc env p g m model).map (fun r => r.plugin)).getD p
  | .genBundleFunc env g m model =>
    ((Bima.genBundleFunc env p g m model).map (fun r => r.plugin)).getD p
  | .generateFile env plugin f => ((Bima.generateFile env plugin p f).map (fun r => r.plugin)).getD p

/-- The plugin state after a sequence of operations. -/
def applyOps (p : BimaPlugin) (ops : List PluginOp) : BimaPlugin :=
  ops.foldl PluginOp.apply p

/-! ## The specification of the resolver and of the response emitter

Definitions that follow the words of the specification, to be compared with
the code above. -/

/-- A path with its leading segment removed (unchanged when it has no `/`). -/
def stripSegment (path : String) : String :=
  match afterSlash path.data with
  | some rest => String.mk rest
  | none => path

/-- A path with its first `n` leading segments removed. -/
def dropSegments (n : Nat) (path : String) : String := Nat.iterate stripSegment n path

/-- The normalized type string of the specification: the bare type name, a
pointer-qualified type prefixed with `*`, a qualified type rendered as
`Owner.Member`, a pointer to a qualified type rendered as `*Owner.Member`;
no string for any other shape. -/
def normalizedType : TypeExpr → Option String
  | .Ident T => some T
  | .SelectorExpr Owner Member => some (Owner ++ "." ++ Member)
  | .StarExpr X =>
    match X with
    | .Ident T => some ("*" ++ T)
    | .SelectorExpr Owner Member => some ("*" ++ (Owner ++ "." ++ Member))
    | _ => none
  | _ => none

/-- The names declared by the named fields of a struct, in order. -/
def declaredNames : List AstField → List String
  | [] => []
  | f :: fs => f.Names ++ declaredNames fs

/-- A response of the message `m`: a message whose name ends in `Response` and
that has a field named `data` of message type `m` that is not a list (a map
field has its entry message as type, which is no message of the file, so such
a field is singular). -/
def isResponseOf (m R : Message) : Bool :=
  matchResponse R.GoIdent.GoName && R.Fields.any (isDataFieldOf m)

/-- The five status methods on `M` that construct the response `R`, in the order
StatusOK, StatusCreated, StatusNoContent, StatusBadRequest, StatusNotFound:
`Data: x,` is left out of StatusNoContent only, and the parameter `err error`
and the line `Message: err.Error(),` are in the two failure methods only. -/
def statusMethods (M R : String) : List String :=
  [P ["func (x *", M, ") ", R, "StatusOK", "() (*", R, ", error) \x7b"],
   P ["return &", R, "\x7b"],
   P ["Code: http.", "StatusOK", ","],
   P ["Data: x,"],
   P ["\x7d, nil"], P ["\x7d"], P [],
   P ["func (x *", M, ") ", R, "StatusCreated", "() (*", R, ", error) \x7b"],
   P ["return &", R, "\x7b"],
   P ["Code: http.", "StatusCreated", ","],
   P ["Data: x,"],
   P ["\x7d, nil"], P ["\x7d"], P [],
   P ["func (x *", M, ") ", R, "StatusNoContent", "() (*", R, ", error) \x7b"],
   P ["return &", R, "\x7b"],
   P ["Code: http.", "StatusNoContent", ","],
   P ["\x7d, nil"], P ["\x7d"], P [],
   P ["func (x *", M, ") ", R, "StatusBadRequest", "(err error) (*", R, ", error) \x7b"],
   P ["return &", R, "\x7b"],
   P ["Code: http.", "StatusBadRequest", ","],
   P ["Data: x,"],
   P ["Message: err.Error(),"],
   P ["\x7d, nil"], P ["\x7d"], P [],
   P ["func (x *", M, ") ", R, "StatusNotFound", "(err error) (*", R, ", error) \x7b"],
   P ["return &", R, "\x7b"],
   P ["Code: http.", "StatusNotFound", ","],
   P ["Data: x,"],
   P ["Message: err.Error(),"],
   P ["\x7d, nil"], P ["\x7d"], P []]

/-- The status methods of all responses in `Rs`, one block of five after the other. -/
def statusMethodsOfAll (g : GeneratedFile) (m : Message) : List Message → List String
  | [] => []
  | R :: Rs =>
    statusMethods (g.QualifiedGoIdent m.GoIdent) (g.QualifiedGoIdent R.GoIdent) ++
      statusMethodsOfAll g m Rs

/-- The five free constructors of the response `R` for a payload of type `T`:
the payload parameter is `d pT` with `p` the pointer marker; the failure
constructors take `err error` in addition; the line `Message: err.Error(),`
is in the failure constructors unless `paginated`. -/
def statusFuncs (R p T : String) (paginated : Bool) : List String :=
  [P ["func ", R, "StatusOK", "(d ", p, T, ") (*", R, ", error) \x7b"],
   P ["return &", R, "\x7b"],
   P ["Code: http.", "StatusOK", ","],
   P ["Data: d,"],
   P ["\x7d, nil"], P ["\x7d"], P [],
   P ["func ", R, "StatusCreated", "(d ", p, T, ") (*", R, ", error) \x7b"],
   P ["return &", R, "\x7b"],
   P ["Code: http.", "StatusCreated", ","],
   P ["Data: d,"],
   P ["\x7d, nil"], P ["\x7d"], P [],
   P ["func ", R, "StatusNoContent", "(d ", p, T, ") (*", R, ", error) \x7b"],
   P ["return &", R, "\x7b"],
   P ["Code: http.", "StatusNoContent", ","],
   P ["\x7d, nil"], P ["\x7d"], P []] ++
  [P ["func ", R, "StatusBadRequest", "(d ", p, T, ", err error) (*", R, ", error) \x7b"],
   P ["return &", R, "\x7b"],
   P ["Code: http.", "StatusBadRequest", ","],
   P ["Data: d,"]] ++
  (if paginated then [] else [P ["Message: err.Error(),"]]) ++
  [P ["\x7d, nil"], P ["\x7d"], P [],
   P ["func ", R, "StatusNotFound", "(d ", p, T, ", err error) (*", R, ", error) \x7b"],
   P ["return &", R, "\x7b"],
   P ["Code: http.", "StatusNotFound", ","],
   P ["Data: d,"]] ++
  (if paginated then [] else [P ["Message: err.Error(),"]]) ++
  [P ["\x7d, nil"], P ["\x7d"], P []]

/-- The constructors of a response for each of its `data` fields of message
kind, one block of five after the other: the payload is `[]*T` for a list
field and `*T` otherwise. -/
def statusFuncsOfAll (g : GeneratedFile) (R : Message) : List MessageField → List String
  | [] => []
  | f :: fs =>
    statusFuncs (g.QualifiedGoIdent R.GoIdent)
        (if f.field.Desc.cardinality = Cardinality.list then "[]*" else "*")
        (g.QualifiedGoIdent f.field.Message) (matchPaginatedResponse R.GoIdent.GoName) ++
      statusFuncsOfAll g R fs

/-! ## Sample sources and schema files -/

/-- The fields of the struct
`type Todo struct { bima.Model; Id string; Title, Note string; Done *bool;
CreatedAt time.Time; UpdatedAt *time.Time; Tags []string; Owner **User }`. -/
def todoFields : List AstField :=
  [⟨[], TypeExpr.SelectorExpr "bima" "Model"⟩,
   ⟨["Id"], TypeExpr.Ident "string"⟩,
   ⟨["Title", "Note"], TypeExpr.Ident "string"⟩,
   ⟨["Done"], TypeExpr.StarExpr (TypeExpr.Ident "bool")⟩,
   ⟨["CreatedAt"], TypeExpr.SelectorExpr "time" "Time"⟩,
   ⟨["UpdatedAt"], TypeExpr.StarExpr (TypeExpr.SelectorExpr "time" "Time")⟩,
   ⟨["Tags"], TypeExpr.ArrayType (TypeExpr.Ident "string")⟩,
   ⟨["Owner"], TypeExpr.StarExpr (TypeExpr.StarExpr (TypeExpr.Ident "User"))⟩]

/-- The file `models/todo.go`: an import declaration and the declaration of the
struct `Todo` with the fields `todoFields`. -/
def todoSource : AstFile :=
  ⟨[Decl.GenDecl [Spec.other],
    Decl.GenDecl [Spec.TypeSpec "Todo" (SpecType.StructType todoFields)]]⟩

/-- A stand-in for `strcase.ToSnake` on one-word names: the name in lower case. -/
def lowerCase (s : String) : String := String.mk (s.data.map Char.toLower)

/-- A file system on which `todo/models/todo.go` holds `todoSource` and no other
file can be read. -/
def sampleEnv : Env :=
  ⟨fun filename =>
    if filename = "todo/models/todo.go" then ParseResult.parsed todoSource none
    else ParseResult.unreadable ("open " ++ filename ++ ": no such file or directory"),
   lowerCase⟩

/-- A file system on which no file can be read. -/
def emptyEnv : Env :=
  ⟨fun filename => ParseResult.unreadable ("open " ++ filename ++ ": no such file or directory"),
   lowerCase⟩

/-- A message of the package `example.com/todo/protos`. -/
def sampleMessage (name : String) (fields : List MessageField) (opts : Option String) :
    Message :=
  ⟨⟨name, "example.com/todo/protos"⟩, fields, opts⟩

/-- The message `Todo`, bound to the model `example.com/todo/models;Todo`, with
the field `string title`. -/
def todoMessage : Message :=
  sampleMessage "Todo" [⟨"title", scalarField "Title" Kind.StringKind⟩]
    (some "example.com/todo/models;Todo")

/-- The message `TodoSummary`, bound to the same model, with the field `bool done`. -/
def summaryMessage : Message :=
  sampleMessage "TodoSummary" [⟨"done", scalarField "Done" Kind.BoolKind⟩]
    (some "example.com/todo/models;Todo")

/-- The message `CreateTodoResponse` with the fields `code`, `data` (a `Todo`)
and `message`. -/
def createTodoResponse : Message :=
  sampleMessage "CreateTodoResponse"
    [⟨"code", scalarField "Code" Kind.Int32Kind⟩,
     ⟨"data", messageField "Data" todoMessage.GoIdent⟩,
     ⟨"message", scalarField "Message" Kind.StringKind⟩] none

/-- The message `TodoPaginatedResponse` with the field `repeated Todo data`. -/
def todoPaginatedResponse : Message :=
  sampleMessage "TodoPaginatedResponse"
    [⟨"data", Field.mk "Data" ⟨false, false, Kind.MessageKind, Cardinality.list⟩ ⟨"", ""⟩
        todoMessage.GoIdent []⟩] none

/-- A schema file of the package `example.com/todo/protos` with the given messages. -/
def sampleProto (name : String) (messages : List Message) : ProtoFile :=
  ⟨name ++ ".proto", name ++ ".proto", true, [], name, "example.com/todo/protos", "protos", [],
    messages⟩

/-- The file `todo.proto` with the message `Todo`. -/
def todoProto : ProtoFile := sampleProto "todo" [todoMessage]

/-- The file `summary.proto` with the message `TodoSummary`. -/
def summaryProto : ProtoFile := sampleProto "summary" [summaryMessage]

/-- The request with the files `todo.proto` and `summary.proto`, in this order. -/
def samplePlugin : Plugin :=
  ⟨[todoProto, summaryProto], some (3, 21, 12), fun _ importPath => fileOf importPath⟩

/-- The enum field `TodoStatus status` of a message of `example.com/todo/protos`. -/
def statusField : Field :=
  .mk "Status" ⟨false, false, Kind.EnumKind, Cardinality.singular⟩
    ⟨"TodoStatus", "example.com/todo/protos"⟩ ⟨"", ""⟩ []

/-- The message field `User owner`, the message `User` being of the same package. -/
def ownerField : Field := messageField "Owner" ⟨"User", "example.com/todo/protos"⟩


/-! ## Nesting of the emitted lines

The lines printed into a function body open a block when they end in `{` and
close one when they are the single character `}`. -/

/-- A line that opens a block: its last character is `{`. -/
def opensBlock (line : String) : Bool := line.data.getLast? = some '\x7b'

/-- A line that closes a block: the line `}`. -/
def closesBlock (line : String) : Bool := line = "\x7d"

/-- The number of lines ending in `{` minus the number of lines equal to `}`. -/
def braceBalance (lines : List String) : Int :=
  ((lines.filter opensBlock).length : Int) - ((lines.filter closesBlock).length : Int)

/-- Reading the lines in order from the depth `d`: a line `}` needs a positive
depth and lowers it by one, a line ending in `{` raises it by one, any other
line leaves it; at the end the depth is zero. -/
def nestedFrom : Nat → List String → Bool
  | d, [] => d == 0
  | d, l :: ls =>
    if closesBlock l then
      match d with
      | 0 => false
      | d' + 1 => nestedFrom d' ls
    else if opensBlock l then nestedFrom (d + 1) ls
    else nestedFrom d ls
/-! ## Lemmas on the helpers -/

theorem P_nil : P [] = "" := rfl

theorem P_cons (a : String) (l : List String) : P (a :: l) = a ++ P l := rfl

theorem splitChar_no_sep (sep : Char) (b : List Char) (h : sep ∉ b) :
    splitChar sep b = [b] := by
  induction b with
  | nil => rfl
  | cons c cs ih =>
    have hc : c ≠ sep := fun e => h (by simp [e])
    have hcs : sep ∉ cs := fun m => h (by simp [m])
    simp [splitChar, hc, ih hcs]

theorem splitChar_append_sep (sep : Char) (a b : List Char) (h : sep ∉ b) :
    ∃ x xs, splitChar sep (a ++ sep :: b) = x :: (xs ++ [b]) := by
  induction a with
  | nil => exact ⟨[], [], by simp [splitChar, splitChar_no_sep sep b h]⟩
  | cons c cs ih =>
    obtain ⟨x, xs, hx⟩ := ih
    by_cases hc : c = sep
    · exact ⟨[], x :: xs, by simp [splitChar, hc, hx]⟩
    · exact ⟨c :: x, xs, by simp [splitChar, hc, hx]⟩

theorem getLastD_splitChar (sep : Char) (a b : List Char) (h : sep ∉ b) :
    (splitChar sep (a ++ sep :: b)).getLastD [] = b := by
  obtain ⟨x, xs, hx⟩ := splitChar_append_sep sep a b h
  rw [hx, ← List.cons_append, List.getLastD_eq_getLast?, List.getLast?_append]
  simp

/-- The last dot-separated part of `pre.name` is `name` when `name` has no dot. -/
theorem lastPart_qualified (pre name : String) (h : '.' ∉ name.data) :
    lastPart (pre ++ "." ++ name) = name := by
  unfold lastPart
  have : (pre ++ "." ++ name).data = pre.data ++ '.' :: name.data := by
    simp [String.data_append]
  rw [this, getLastD_splitChar '.' _ _ h]

theorem dropFirst_star (q : String) : dropFirst ("*" ++ q) = q := by
  simp [dropFirst, String.data_append]

theorem parseType_star (t : String) : parseType ("*" ++ t) = (t, true) := by
  simp [parseType, String.data_append]

theorem parseType_plain (t : String) (h : t.data.head? ≠ some '*') :
    parseType t = (t, false) := by
  unfold parseType
  split
  · rename_i rest hd
    simp [hd] at h
  · rfl

/-- The declared type is its core type, with a `*` in front when the pointer flag is set. -/
theorem parseType_spec (s : String) :
    s = if (parseType s).2 then "*" ++ (parseType s).1 else (parseType s).1 := by
  rcases hd : s.data with _ | ⟨c, rest⟩
  · rw [parseType_plain s (by simp [hd])]
    simp
  · by_cases hc : c = '*'
    · subst hc
      have hp : parseType s = (String.mk rest, true) := by simp [parseType, hd]
      rw [hp]
      apply String.ext
      simp [String.data_append, hd]
    · rw [parseType_plain s (by simp [hd, hc])]
      simp

/-- A declared type either starts with `*`, which `parseType` removes, or is
returned unchanged. -/
theorem parseType_cases (s : String) :
    (∃ c, s = "*" ++ c ∧ parseType s = (c, true)) ∨
      (parseType s = (s, false) ∧ s.data.head? ≠ some '*') := by
  rcases hd : s.data with _ | ⟨c, rest⟩
  · exact Or.inr ⟨parseType_plain s (by simp [hd]), by simp⟩
  · by_cases hc : c = '*'
    · subst hc
      refine Or.inl ⟨String.mk rest, ?_, by simp [parseType, hd]⟩
      apply String.ext
      simp [String.data_append, hd]
    · exact Or.inr ⟨parseType_plain s (by simp [hd, hc]), by simp [hc]⟩

theorem star_append_ne (c t : String) (h : t.data.head? ≠ some '*') : "*" ++ c ≠ t := by
  intro e
  subst e
  simp [String.data_append] at h

theorem star_append_inj (a b : String) (h : "*" ++ a = "*" ++ b) : a = b := by
  have := congrArg String.data h
  simp only [String.data_append] at this
  exact String.ext (List.append_cancel_left this)

/-- The body of `fieldGoType` for a field that is not a map. -/
theorem fieldGoType_not_map (g : GeneratedFile) (field : Field)
    (hs : field.Desc.IsMap = false) :
    fieldGoType g field =
      if field.Desc.IsWeak then some ("struct\x7b\x7d", false)
      else
        let pointer := field.Desc.HasPresence
        let r : String × Bool :=
          match field.Desc.Kind with
          | .BoolKind => ("bool", pointer)
          | .EnumKind => (g.QualifiedGoIdent field.Enum, pointer)
          | .Int32Kind | .Sint32Kind | .Sfixed32Kind => ("int32", pointer)
          | .Uint32Kind | .Fixed32Kind => ("uint32", pointer)
          | .Int64Kind | .Sint64Kind | .Sfixed64Kind => ("int64", pointer)
          | .Uint64Kind | .Fixed64Kind => ("uint64", pointer)
          | .FloatKind => ("float32", pointer)
          | .DoubleKind => ("float64", pointer)
          | .StringKind => ("string", pointer)
          | .BytesKind => ("[]byte", false)
          | .MessageKind | .GroupKind => ("*" ++ g.QualifiedGoIdent field.Message, false)
        if field.Desc.IsList then some ("[]" ++ r.1, false) else some r := by
  obtain ⟨n, ⟨w, hp, k, c⟩, e, m, fs⟩ := field
  simp only [Field.Desc, FieldDesc.IsMap, Field.Enum, Field.Message] at *
  rcases fs with _ | ⟨a, _ | ⟨b, t⟩⟩ <;> cases w <;> cases c <;>
    first | (cases k <;> rfl) | simp at hs

/-- The wire Go type of a singular message field is the pointer to its message type. -/
theorem fieldGoType_message (g : GeneratedFile) (field : Field)
    (hs : field.Desc.cardinality = Cardinality.singular) (hw : field.Desc.IsWeak = false)
    (hm : field.Desc.hasMessage = true) :
    fieldGoType g field = some ("*" ++ g.QualifiedGoIdent field.Message, false) := by
  rw [fieldGoType_not_map g field (by simp [FieldDesc.IsMap, hs])]
  simp only [FieldDesc.hasMessage] at hm
  cases hk : field.Desc.Kind <;> simp [hk] at hm <;> simp [hw, FieldDesc.IsList, hs]

/-- The function `fieldGoType` returns on every singular field. -/
theorem fieldGoType_singular (g : GeneratedFile) (field : Field)
    (hs : field.Desc.cardinality = Cardinality.singular) :
    ∃ r, fieldGoType g field = some r := by
  rw [fieldGoType_not_map g field (by simp [FieldDesc.IsMap, hs])]
  split
  · exact ⟨_, rfl⟩
  · simp [FieldDesc.IsList, hs]

/-- The function `fieldGoType` returns on every list field. -/
theorem fieldGoType_list (g : GeneratedFile) (field : Field)
    (hs : field.Desc.cardinality = Cardinality.list) :
    ∃ r, fieldGoType g field = some r := by
  rw [fieldGoType_not_map g field (by simp [FieldDesc.IsMap, hs])]
  split
  · exact ⟨_, rfl⟩
  · simp [FieldDesc.IsList, hs]

/-- The last part of `*pkg.Name` is `Name` for every key `Name` of `wellKnownTypes`. -/
theorem lastPart_wellKnown (pkg name pbFieldType : String)
    (h : lookup name wellKnownTypes = some pbFieldType) :
    lastPart ("*" ++ (pkg ++ "." ++ name)) = name := by
  have hd : '.' ∉ name.data := by
    simp only [lookup, wellKnownTypes] at h
    split_ifs at h <;> simp_all
  have : "*" ++ (pkg ++ "." ++ name) = ("*" ++ pkg) ++ "." ++ name := by
    simp [String.append_assoc]
  rw [this]
  exact lastPart_qualified _ _ hd

/-- No basic type is an SQL-null wrapper, and none starts with `*`. -/
theorem basicTypes_plain (D : String) (hD : D ∈ basicTypes) :
    lookup D sqlTypes = none ∧ parseType D = (D, false) := by
  simp only [basicTypes, List.mem_cons, List.mem_singleton, List.not_mem_nil, or_false] at hD
  rcases hD with h | h | h | h | h | h | h | h | h | h | h | h | h | h | h | h <;>
    subst h <;> exact ⟨by decide, by decide⟩

/-- No SQL-null wrapper type starts with `*`. -/
theorem sqlTypes_plain (T v : String) (hT : lookup T sqlTypes = some v) :
    parseType T = (T, false) := by
  simp only [lookup, sqlTypes] at hT
  split_ifs at hT <;> subst T <;> decide

/-! ## List and map fields -/

/-- A list field is skipped: no line, no error, no warning, in both directions. -/
theorem genFieldConversion_list (p : BimaPlugin) (g : GeneratedFile) (field : Field)
    (model : GoIdent) (sf : structFields) (toX : Bool)
    (hmodel : lookup model.GoName p.modelTypes = some sf)
    (hlist : field.Desc.cardinality = Cardinality.list) :
    genFieldConversion p g field model toX = some ⟨[], none, []⟩ := by
  obtain ⟨r, hr⟩ := fieldGoType_list g field hlist
  unfold genFieldConversion
  simp [hr, hmodel, FieldDesc.IsList, hlist]

/-- C1 (the code departs from the claim): the map field
`map<string, google.protobuf.Timestamp> schedule`, bound to a model whose field
`Schedule` has the declared type `datatypes.JSON`, is not skipped.  Only list
fields are; a map field is of message kind and its Go type
`map[string]*timestamppb.Timestamp` ends in `.Timestamp`, so the timestamp rule
runs: Bundle reports an error, and Bind prints two opening lines and reports
the same error. -/
theorem map_field_not_skipped :
    genFieldConversion (pluginWith [("Schedule", "datatypes.JSON")]) sampleFile scheduleField
        todoModel true
      = some ⟨[], some "type datatypes.JSON is not to be used for Timestamp", []⟩ ∧
    genFieldConversion (pluginWith [("Schedule", "datatypes.JSON")]) sampleFile scheduleField
        todoModel false
      = some ⟨["if from.Schedule != nil \x7b", "if from.Schedule.IsValid() \x7b"],
          some "type datatypes.JSON is not to be used for Timestamp", []⟩ := by
  constructor <;> decide

/-! ## Scalar fields -/

/-- C2 (the code departs from the claim): for a scalar field bound to a model
field of pointer type, Bundle dereferences `from.<Field>` in a bare assignment,
with no `if from.<Field> != nil` line around it, both for the declared type
`*string` and for a declared type that needs a conversion (`*int64` against the
wire type `int32`). -/
theorem scalar_pointer_bundle_unguarded :
    genFieldConversion (pluginWith [("Name", "*string")]) sampleFile
        (scalarField "Name" Kind.StringKind) todoModel true
      = some ⟨["to.Name = *from.Name"], none, []⟩ ∧
    genFieldConversion (pluginWith [("Age", "*int64")]) sampleFile
        (scalarField "Age" Kind.Int32Kind) todoModel true
      = some ⟨["to.Age = int32(*from.Age)"], none, []⟩ := by
  constructor <;> decide

/-- C3 (the code departs from the claim): for the wire type `int32` and the
declared type `*int32` the core types agree, and both directions print the
plain assignment `to.Age = from.Age`, without the dereference (Bundle) or the
address-of (Bind) that the pointer on the model side calls for. -/
theorem same_core_pointer_plain_assignment :
    genFieldConversion (pluginWith [("Age", "*int32")]) sampleFile
        (scalarField "Age" Kind.Int32Kind) todoModel true
      = some ⟨["to.Age = from.Age"], none, []⟩ ∧
    genFieldConversion (pluginWith [("Age", "*int32")]) sampleFile
        (scalarField "Age" Kind.Int32Kind) todoModel false
      = some ⟨["to.Age = from.Age"], none, []⟩ := by
  constructor <;> decide

/-- C4, as stated, fails for the declared type `string`: against the wire type
`int32` both directions print the plain assignment, not the conversions
`int32(from.Code)` and `string(from.Code)`. -/
theorem scalar_string_model_no_conversion :
    genFieldConversion (pluginWith [("Code", "string")]) sampleFile
        (scalarField "Code" Kind.Int32Kind) todoModel true
      = some ⟨["to.Code = from.Code"], none, []⟩ ∧
    genFieldConversion (pluginWith [("Code", "string")]) sampleFile
        (scalarField "Code" Kind.Int32Kind) todoModel true
      ≠ some ⟨["to.Code = int32(from.Code)"], none, []⟩ ∧
    genFieldConversion (pluginWith [("Code", "string")]) sampleFile
        (scalarField "Code" Kind.Int32Kind) todoModel false
      = some ⟨["to.Code = from.Code"], none, []⟩ ∧
    genFieldConversion (pluginWith [("Code", "string")]) sampleFile
        (scalarField "Code" Kind.Int32Kind) todoModel false
      ≠ some ⟨["to.Code = string(from.Code)"], none, []⟩ := by
  refine ⟨?_, ?_, ?_, ?_⟩ <;> decide

/-- C4, amended: for a singular field that is not of message kind, of wire Go
type `W` without presence, and a declared type `D` or `*D` (`ptr` tells which)
with `D` a basic type other than `string` and `bool` and different from `W`,
Bundle prints `to.F = W(from.F)`, or `to.F = W(*from.F)` for `*D`, and Bind
prints `to.F = D(from.F)`, or for `*D` the two lines `f := D(from.F)` and
`to.F = &f` with `f = toLowerFirst(F)`. -/
theorem scalar_conversion (p : BimaPlugin) (g : GeneratedFile) (field : Field)
    (model : GoIdent) (sf : structFields) (W D lower : String) (ptr : Bool)
    (hmodel : lookup model.GoName p.modelTypes = some sf)
    (hs : field.Desc.cardinality = Cardinality.singular)
    (hm : field.Desc.hasMessage = false)
    (hW : fieldGoType g field = some (W, false))
    (hD : D ∈ basicTypes) (hstr : D ≠ "string") (hbool : D ≠ "bool") (hWD : W ≠ D)
    (hlow : toLowerFirst field.GoName = some lower)
    (hF : lookup field.GoName sf = some (if ptr then "*" ++ D else D)) :
    genFieldConversion p g field model true
      = some ⟨[P ["to.", field.GoName, " = ", W, if ptr then "(*from." else "(from.",
                 field.GoName, ")"]], none, []⟩ ∧
    genFieldConversion p g field model false
      = some ⟨if ptr then [P [lower, " := ", D, "(from.", field.GoName, ")"],
                           P ["to.", field.GoName, " = &", lower]]
              else [P ["to.", field.GoName, " = ", D, "(from.", field.GoName, ")"]],
          none, []⟩ := by
  obtain ⟨hsql, hplain⟩ := basicTypes_plain D hD
  have hl : field.Desc.IsList = false := by simp [FieldDesc.IsList, hs]
  unfold genFieldConversion
  cases ptr <;>
    simp [hW, hmodel, hl, hm, hF, hplain, parseType_star, hstr, hbool, hWD, hsql, hlow]

/-- C4, amended, at the field `Age` of wire type `int32` with the declared types
`int64` and `*int64`. -/
theorem scalar_conversion_witness :
    (genFieldConversion (pluginWith [("Age", "int64")]) sampleFile
        (scalarField "Age" Kind.Int32Kind) todoModel true
      = some ⟨["to.Age = int32(from.Age)"], none, []⟩ ∧
     genFieldConversion (pluginWith [("Age", "int64")]) sampleFile
        (scalarField "Age" Kind.Int32Kind) todoModel false
      = some ⟨["to.Age = int64(from.Age)"], none, []⟩) ∧
    (genFieldConversion (pluginWith [("Age", "*int64")]) sampleFile
        (scalarField "Age" Kind.Int32Kind) todoModel true
      = some ⟨["to.Age = int32(*from.Age)"], none, []⟩ ∧
     genFieldConversion (pluginWith [("Age", "*int64")]) sampleFile
        (scalarField "Age" Kind.Int32Kind) todoModel false
      = some ⟨["age := int64(from.Age)", "to.Age = &age"], none, []⟩) :=
  ⟨scalar_conversion (pluginWith [("Age", "int64")]) sampleFile
      (scalarField "Age" Kind.Int32Kind) todoModel [("Age", "int64")] "int32" "int64" "age"
      false (by decide) (by decide) (by decide) (by decide) (by decide) (by decide)
      (by decide) (by decide) (by decide) (by decide),
   scalar_conversion (pluginWith [("Age", "*int64")]) sampleFile
      (scalarField "Age" Kind.Int32Kind) todoModel [("Age", "*int64")] "int32" "int64" "age"
      true (by decide) (by decide) (by decide) (by decide) (by decide) (by decide)
      (by decide) (by decide) (by decide) (by decide)⟩

/-! ## Errors -/

/-- C5 (the code departs from the claim): in the Bind direction the timestamp
rule prints its two opening lines before it checks the declared type, so a
field that reports an error has already left two unclosed lines in the output,
both for a wrong declared type and for a pointer to `sql.NullTime`. -/
theorem timestamp_bind_error_leaves_lines :
    genFieldConversion (pluginWith [("CreatedAt", "string")]) sampleFile
        (messageField "CreatedAt" timestampIdent) todoModel false
      = some ⟨["if from.CreatedAt != nil \x7b", "if from.CreatedAt.IsValid() \x7b"],
          some "type string is not to be used for Timestamp", []⟩ ∧
    genFieldConversion (pluginWith [("CreatedAt", "*sql.NullTime")]) sampleFile
        (messageField "CreatedAt" timestampIdent) todoModel false
      = some ⟨["if from.CreatedAt != nil \x7b", "if from.CreatedAt.IsValid() \x7b"],
          some "type *sql.NullTime is not supported", []⟩ := by
  constructor <;> decide

/-- C6: for a singular message field whose Go type is printed `pkg.Timestamp`
and whose model field has the declared type `s`, Bind and Bundle report the
same error, if any; an error is reported exactly when `s` is none of
`sql.NullTime`, `time.Time`, `*time.Time`; and its text is
`type s is not to be used for Timestamp` exactly when the core type of `s` is
neither `sql.NullTime` nor `time.Time`. -/
theorem timestamp_error_iff (p : BimaPlugin) (g : GeneratedFile) (field : Field)
    (model : GoIdent) (sf : structFields) (pkg s : String)
    (hmodel : lookup model.GoName p.modelTypes = some sf)
    (hs : field.Desc.cardinality = Cardinality.singular) (hw : field.Desc.IsWeak = false)
    (hm : field.Desc.hasMessage = true)
    (hq : g.QualifiedGoIdent field.Message = pkg ++ "." ++ "Timestamp")
    (hF : lookup field.GoName sf = some s) :
    ∃ bind bundle,
      genFieldConversion p g field model false = some bind ∧
      genFieldConversion p g field model true = some bundle ∧
      bind.err = bundle.err ∧
      (bundle.err ≠ none ↔ s ≠ "sql.NullTime" ∧ s ≠ "time.Time" ∧ s ≠ "*time.Time") ∧
      (bundle.err = some ("type " ++ s ++ " is not to be used for Timestamp") ↔
        (parseType s).1 ≠ "sql.NullTime" ∧ (parseType s).1 ≠ "time.Time") := by
  have hl : field.Desc.IsList = false := by simp [FieldDesc.IsList, hs]
  have hlp : lastPart ("*" ++ (pkg ++ "." ++ "Timestamp")) = "Timestamp" := by
    have : "*" ++ (pkg ++ "." ++ "Timestamp") = ("*" ++ pkg) ++ "." ++ "Timestamp" := by
      simp [String.append_assoc]
    rw [this]
    exact lastPart_qualified _ _ (by decide)
  have hwk : lookup "Timestamp" wellKnownTypes = none := by decide
  unfold genFieldConversion
  rw [fieldGoType_message g field hs hw hm]
  simp only [hmodel, hl, hm, hq, hF, hlp, hwk, Bool.false_eq_true, if_false, if_true]
  rcases parseType_cases s with ⟨c, rfl, hp⟩ | ⟨hp, hh⟩
  · rw [hp]
    by_cases h1 : c = "sql.NullTime"
    · subst h1
      simp [lookup, sqlTypes, P]
    · by_cases h2 : c = "time.Time"
      · subst h2
        simp [lookup, sqlTypes, P]
      · have n1 : "*" ++ c ≠ "sql.NullTime" := star_append_ne c _ (by decide)
        have n2 : "*" ++ c ≠ "time.Time" := star_append_ne c _ (by decide)
        have n3 : "*" ++ c ≠ "*time.Time" := fun e => h2 (star_append_inj c "time.Time" e)
        cases lookup c sqlTypes <;> simp [h1, h2, n1, n2, n3, P, String.append_assoc]
  · rw [hp]
    by_cases h1 : s = "sql.NullTime"
    · subst h1
      simp [lookup, sqlTypes, P]
    · by_cases h2 : s = "time.Time"
      · subst h2
        simp [lookup, sqlTypes, P]
      · have n3 : s ≠ "*time.Time" := fun e => hh (by subst e; decide)
        cases lookup s sqlTypes <;> simp [h1, h2, n3, P, String.append_assoc]

/-- C6 at the field `CreatedAt` of type `google.protobuf.Timestamp` with the
declared type `*sql.NullTime`. -/
theorem timestamp_error_iff_witness :
    ∃ bind bundle,
      genFieldConversion (pluginWith [("CreatedAt", "*sql.NullTime")]) sampleFile
        (messageField "CreatedAt" timestampIdent) todoModel false = some bind ∧
      genFieldConversion (pluginWith [("CreatedAt", "*sql.NullTime")]) sampleFile
        (messageField "CreatedAt" timestampIdent) todoModel true = some bundle ∧
      bind.err = bundle.err ∧
      (bundle.err ≠ none ↔
        "*sql.NullTime" ≠ "sql.NullTime" ∧ "*sql.NullTime" ≠ "time.Time" ∧
          "*sql.NullTime" ≠ "*time.Time") ∧
      (bundle.err = some ("type " ++ "*sql.NullTime" ++ " is not to be used for Timestamp") ↔
        (parseType "*sql.NullTime").1 ≠ "sql.NullTime" ∧
          (parseType "*sql.NullTime").1 ≠ "time.Time") :=
  timestamp_error_iff (pluginWith [("CreatedAt", "*sql.NullTime")]) sampleFile
    (messageField "CreatedAt" timestampIdent) todoModel [("CreatedAt", "*sql.NullTime")]
    "timestamppb" "*sql.NullTime" (by decide) (by decide) (by decide) (by decide)
    (by decide) (by decide)

/-! ## Well-known wrapper fields -/

/-- C7: for a singular message field whose Go type is printed `pkg.Name` with
`Name` a key of `wellKnownTypes`, and a declared type `*T` with `T` a key of
`sqlTypes`, both directions report the error `type *T is not supported` and
print no line. -/
theorem wrapper_pointer_sql_rejected (p : BimaPlugin) (g : GeneratedFile) (field : Field)
    (model : GoIdent) (sf : structFields) (pkg name pbFieldType T v : String) (toX : Bool)
    (hmodel : lookup model.GoName p.modelTypes = some sf)
    (hs : field.Desc.cardinality = Cardinality.singular) (hw : field.Desc.IsWeak = false)
    (hm : field.Desc.hasMessage = true)
    (hq : g.QualifiedGoIdent field.Message = pkg ++ "." ++ name)
    (hwk : lookup name wellKnownTypes = some pbFieldType)
    (hT : lookup T sqlTypes = some v)
    (hF : lookup field.GoName sf = some ("*" ++ T)) :
    genFieldConversion p g field model toX =
      some ⟨[], some ("type " ++ ("*" ++ T) ++ " is not supported"), []⟩ := by
  have hl : field.Desc.IsList = false := by simp [FieldDesc.IsList, hs]
  unfold genFieldConversion
  rw [fieldGoType_message g field hs hw hm]
  simp only [hmodel, hl, hm, hq, hF, Bool.false_eq_true, if_false, if_true,
    lastPart_wellKnown pkg name pbFieldType hwk, hwk, parseType_star, hT]
  cases toX <;> simp [P, String.append_assoc]

/-- C7 at the field `Title` of type `google.protobuf.StringValue` with the
declared type `*sql.NullString`, in both directions. -/
theorem wrapper_pointer_sql_rejected_witness :
    genFieldConversion (pluginWith [("Title", "*sql.NullString")]) sampleFile
        (messageField "Title" (wrapperIdent "StringValue")) todoModel true
      = some ⟨[], some "type *sql.NullString is not supported", []⟩ ∧
    genFieldConversion (pluginWith [("Title", "*sql.NullString")]) sampleFile
        (messageField "Title" (wrapperIdent "StringValue")) todoModel false
      = some ⟨[], some "type *sql.NullString is not supported", []⟩ :=
  ⟨wrapper_pointer_sql_rejected (pluginWith [("Title", "*sql.NullString")]) sampleFile
      (messageField "Title" (wrapperIdent "StringValue")) todoModel
      [("Title", "*sql.NullString")] "wrapperspb" "StringValue" "string" "sql.NullString"
      "String" true (by decide) (by decide) (by decide) (by decide) (by decide) (by decide)
      (by decide) (by decide),
   wrapper_pointer_sql_rejected (pluginWith [("Title", "*sql.NullString")]) sampleFile
      (messageField "Title" (wrapperIdent "StringValue")) todoModel
      [("Title", "*sql.NullString")] "wrapperspb" "StringValue" "string" "sql.NullString"
      "String" false (by decide) (by decide) (by decide) (by decide) (by decide) (by decide)
      (by decide) (by decide)⟩

/-- C8: for a singular message field `F` whose Go type is printed `W = pkg.Name`
with `Name` a key of `wellKnownTypes`, and a declared type `T` that is a key of
`sqlTypes` with value member `v`, Bundle prints exactly
`if from.F.Valid {`, `to.F = &W{Value: from.F.v}`, `}` and Bind prints exactly
`if from.F != nil {`, `to.F = T{v: from.F.Value, Valid: true}`, `}`.  Run on a
model value with `Valid = false` and an unset message field, the Bundle
statement leaves the message field unset; and the Bind statement run after the
Bundle statement on a model value `x` with `Valid = true` yields the member `x`
with `Valid = true`. -/
theorem sql_null_plan (p : BimaPlugin) (g : GeneratedFile) (field : Field)
    (model : GoIdent) (sf : structFields) (pkg name pbFieldType T v : String)
    (hmodel : lookup model.GoName p.modelTypes = some sf)
    (hs : field.Desc.cardinality = Cardinality.singular) (hw : field.Desc.IsWeak = false)
    (hm : field.Desc.hasMessage = true)
    (hq : g.QualifiedGoIdent field.Message = pkg ++ "." ++ name)
    (hwk : lookup name wellKnownTypes = some pbFieldType)
    (hT : lookup T sqlTypes = some v)
    (hF : lookup field.GoName sf = some T) :
    genFieldConversion p g field model true
      = some ⟨(NullStmt.wrap field.GoName (pkg ++ "." ++ name) v).render, none, []⟩ ∧
    genFieldConversion p g field model false
      = some ⟨(NullStmt.unwrap field.GoName T v).render, none, []⟩ ∧
    (∀ (α : Type) (x : α),
      ((NullStmt.wrap field.GoName (pkg ++ "." ++ name) v).run ⟨none, ⟨x, false⟩⟩).wire
        = none) ∧
    (∀ (α : Type) (x : α) (w : Option α) (old : NullValue α),
      ((NullStmt.unwrap field.GoName T v).run
        ⟨((NullStmt.wrap field.GoName (pkg ++ "." ++ name) v).run ⟨w, ⟨x, true⟩⟩).wire,
          old⟩).model = ⟨x, true⟩) := by
  have hl : field.Desc.IsList = false := by simp [FieldDesc.IsList, hs]
  have hplain := sqlTypes_plain T v hT
  refine ⟨?_, ?_, ?_, ?_⟩
  · unfold genFieldConversion
    rw [fieldGoType_message g field hs hw hm]
    simp only [hmodel, hl, hm, hq, hF, Bool.false_eq_true, if_false, if_true,
      lastPart_wellKnown pkg name pbFieldType hwk, hwk, hplain, hT, dropFirst_star,
      NullStmt.render]
  · unfold genFieldConversion
    rw [fieldGoType_message g field hs hw hm]
    simp only [hmodel, hl, hm, hq, hF, Bool.false_eq_true, if_false, if_true,
      lastPart_wellKnown pkg name pbFieldType hwk, hwk, hplain, hT, dropFirst_star,
      NullStmt.render]
    simp [P, String.append_assoc]
    rw [show ": from." = ": " ++ "from." from by decide]
    simp only [String.append_assoc]
  · intro α x
    simp [NullStmt.run]
  · intro α x w old
    simp [NullStmt.run]

/-- C8 at the field `Title` of type `google.protobuf.StringValue` with the
declared type `sql.NullString`. -/
theorem sql_null_plan_witness :
    genFieldConversion (pluginWith [("Title", "sql.NullString")]) sampleFile
        (messageField "Title" (wrapperIdent "StringValue")) todoModel true
      = some ⟨["if from.Title.Valid \x7b",
               "to.Title = &wrapperspb.StringValue\x7bValue: from.Title.String\x7d",
               "\x7d"], none, []⟩ ∧
    genFieldConversion (pluginWith [("Title", "sql.NullString")]) sampleFile
        (messageField "Title" (wrapperIdent "StringValue")) todoModel false
      = some ⟨["if from.Title != nil \x7b",
               "to.Title = sql.NullString\x7bString: from.Title.Value, Valid: true\x7d",
               "\x7d"], none, []⟩ ∧
    (∀ (α : Type) (x : α),
      ((NullStmt.wrap "Title" "wrapperspb.StringValue" "String").run
        (⟨none, ⟨x, false⟩⟩ : FieldState α)).wire = none) ∧
    (∀ (α : Type) (x : α) (w : Option α) (old : NullValue α),
      ((NullStmt.unwrap "Title" "sql.NullString" "String").run
        ⟨((NullStmt.wrap "Title" "wrapperspb.StringValue" "String").run ⟨w, ⟨x, true⟩⟩).wire,
          old⟩).model = ⟨x, true⟩) :=
  sql_null_plan (pluginWith [("Title", "sql.NullString")]) sampleFile
    (messageField "Title" (wrapperIdent "StringValue")) todoModel
    [("Title", "sql.NullString")] "wrapperspb" "StringValue" "string" "sql.NullString"
    "String" (by decide) (by decide) (by decide) (by decide) (by decide) (by decide)
    (by decide) (by decide)

/-- C9, as stated, fails: for the wrapper `Int64Value` and the declared type
`*string` Bind takes the address of `from.Count.Value` without converting it,
and for the declared type `*int` Bundle stores `*from.Count` in the wrapper
without converting it to `int64`. -/
theorem wrapper_pointer_no_conversion :
    genFieldConversion (pluginWith [("Count", "*string")]) sampleFile
        (messageField "Count" (wrapperIdent "Int64Value")) todoModel false
      = some ⟨["if from.Count != nil \x7b", "to.Count = &from.Count.Value", "\x7d"],
          none, []⟩ ∧
    genFieldConversion (pluginWith [("Count", "*string")]) sampleFile
        (messageField "Count" (wrapperIdent "Int64Value")) todoModel false
      ≠ some ⟨["if from.Count != nil \x7b", "count := string(from.Count.Value)",
               "to.Count = &count", "\x7d"], none, []⟩ ∧
    genFieldConversion (pluginWith [("Count", "*int")]) sampleFile
        (messageField "Count" (wrapperIdent "Int64Value")) todoModel true
      = some ⟨["if from.Count != nil \x7b",
               "to.Count = &wrapperspb.Int64Value\x7bValue: *from.Count\x7d", "\x7d"],
          none, []⟩ ∧
    genFieldConversion (pluginWith [("Count", "*int")]) sampleFile
        (messageField "Count" (wrapperIdent "Int64Value")) todoModel true
      ≠ some ⟨["if from.Count != nil \x7b",
               "to.Count = &wrapperspb.Int64Value\x7bValue: int64(*from.Count)\x7d", "\x7d"],
          none, []⟩ := by
  refine ⟨?_, ?_, ?_, ?_⟩ <;> decide

/-- C9, amended: for a singular message field `F` whose Go type is printed
`pkg.Name`, `Name` a key of `wellKnownTypes` carrying the primitive `P`, and a
declared type `*D` with `D` a basic type other than `string` and `bool` and
different from `P`, Bind prints, inside the guard `if from.F != nil {`, the
conversion `f := D(from.F.Value)` followed by `to.F = &f`, with
`f = toLowerFirst(F)`; and the lines of Bundle are enclosed in the same guard. -/
theorem wrapper_pointer_bind_conversion (p : BimaPlugin) (g : GeneratedFile) (field : Field)
    (model : GoIdent) (sf : structFields) (pkg name pbFieldType D lower : String)
    (hmodel : lookup model.GoName p.modelTypes = some sf)
    (hs : field.Desc.cardinality = Cardinality.singular) (hw : field.Desc.IsWeak = false)
    (hm : field.Desc.hasMessage = true)
    (hq : g.QualifiedGoIdent field.Message = pkg ++ "." ++ name)
    (hwk : lookup name wellKnownTypes = some pbFieldType)
    (hD : D ∈ basicTypes) (hstr : D ≠ "string") (hbool : D ≠ "bool")
    (hPD : pbFieldType ≠ D)
    (hlow : toLowerFirst field.GoName = some lower)
    (hF : lookup field.GoName sf = some ("*" ++ D)) :
    genFieldConversion p g field model false
      = some ⟨[P ["if from.", field.GoName, " != nil \x7b"],
               P [lower, " := ", D, "(", "from." ++ field.GoName ++ ".Value", ")"],
               P ["to.", field.GoName, " = ", "&" ++ lower],
               P ["\x7d"]], none, []⟩ ∧
    ∃ body, genFieldConversion p g field model true
      = some ⟨P ["if from.", field.GoName, " != nil \x7b"] :: (body ++ [P ["\x7d"]]),
          none, []⟩ := by
  have hl : field.Desc.IsList = false := by simp [FieldDesc.IsList, hs]
  obtain ⟨hsql, -⟩ := basicTypes_plain D hD
  constructor
  · unfold genFieldConversion
    rw [fieldGoType_message g field hs hw hm]
    simp only [hmodel, hl, hm, hq, hF, Bool.false_eq_true, if_false, if_true,
      lastPart_wellKnown pkg name pbFieldType hwk, hwk, parseType_star, hsql, hstr, hbool,
      hPD, hlow, or_self]
  · refine ⟨[P ["to.", field.GoName, " = &", pkg ++ "." ++ name, "\x7bValue: *from.",
      field.GoName, "\x7d"]], ?_⟩
    unfold genFieldConversion
    rw [fieldGoType_message g field hs hw hm]
    simp only [hmodel, hl, hm, hq, hF, Bool.false_eq_true, if_false, if_true,
      lastPart_wellKnown pkg name pbFieldType hwk, hwk, parseType_star, hsql,
      dropFirst_star, List.singleton_append]

/-- C9, amended, at the field `Count` of type `google.protobuf.Int64Value` with
the declared type `*int`. -/
theorem wrapper_pointer_bind_conversion_witness :
    genFieldConversion (pluginWith [("Count", "*int")]) sampleFile
        (messageField "Count" (wrapperIdent "Int64Value")) todoModel false
      = some ⟨["if from.Count != nil \x7b", "count := int(from.Count.Value)",
               "to.Count = &count", "\x7d"], none, []⟩ ∧
    ∃ body, genFieldConversion (pluginWith [("Count", "*int")]) sampleFile
        (messageField "Count" (wrapperIdent "Int64Value")) todoModel true
      = some ⟨"if from.Count != nil \x7b" :: (body ++ ["\x7d"]), none, []⟩ :=
  wrapper_pointer_bind_conversion (pluginWith [("Count", "*int")]) sampleFile
    (messageField "Count" (wrapperIdent "Int64Value")) todoModel [("Count", "*int")]
    "wrapperspb" "Int64Value" "int64" "int" "count" (by decide) (by decide) (by decide)
    (by decide) (by decide) (by decide) (by decide) (by decide) (by decide) (by decide)
    (by decide) (by decide)

/-! ## The identifier field and absent fields -/

/-- C10, as stated, fails: a field `Id` that is present in the model field map
follows the rule of its declared type (`*string` gives `to.Id = *from.Id` in
Bundle, `uint` gives `to.Id = uint(from.Id)` in Bind), and a field `Id` of
message kind that is absent from the map prints nothing. -/
theorem id_present_follows_declared_type :
    genFieldConversion (pluginWith [("Id", "*string")]) sampleFile
        (scalarField "Id" Kind.StringKind) todoModel true
      = some ⟨["to.Id = *from.Id"], none, []⟩ ∧
    genFieldConversion (pluginWith [("Id", "*string")]) sampleFile
        (scalarField "Id" Kind.StringKind) todoModel true
      ≠ some ⟨["to.Id = from.Id"], none, []⟩ ∧
    genFieldConversion (pluginWith [("Id", "uint")]) sampleFile
        (scalarField "Id" Kind.StringKind) todoModel false
      = some ⟨["to.Id = uint(from.Id)"], none, []⟩ ∧
    genFieldConversion (pluginWith []) sampleFile
        (messageField "Id" (wrapperIdent "StringValue")) todoModel true
      = some ⟨[], none, []⟩ := by
  refine ⟨?_, ?_, ?_, ?_⟩ <;> decide

/-- C10, amended: a singular field that is absent from the model field map
prints exactly `to.Id = from.Id` when its Go name is `Id` and it is not of
message kind, and nothing otherwise; in both directions, with no error and no
warning. -/
theorem absent_field (p : BimaPlugin) (g : GeneratedFile) (field : Field)
    (model : GoIdent) (sf : structFields) (toX : Bool)
    (hmodel : lookup model.GoName p.modelTypes = some sf)
    (hs : field.Desc.cardinality = Cardinality.singular)
    (hF : lookup field.GoName sf = none) :
    genFieldConversion p g field model toX
      = some ⟨if field.GoName = "Id" ∧ field.Desc.hasMessage = false
              then ["to.Id = from.Id"] else [], none, []⟩ := by
  have hl : field.Desc.IsList = false := by simp [FieldDesc.IsList, hs]
  obtain ⟨r, hr⟩ := fieldGoType_singular g field hs
  unfold genFieldConversion
  by_cases hid : field.GoName = "Id"
  · have hId := hF
    rw [hid] at hId
    cases hm : field.Desc.hasMessage <;> simp [hr, hmodel, hl, hm, hId, hid, P]
  · cases hm : field.Desc.hasMessage <;> simp [hr, hmodel, hl, hm, hF, hid]

/-- C10, amended, at the string field `Id` and the bool field `Done`, both
absent from the field map of the model, in both directions. -/
theorem absent_field_witness :
    (genFieldConversion (pluginWith [("Title", "string")]) sampleFile
        (scalarField "Id" Kind.StringKind) todoModel true
      = some ⟨["to.Id = from.Id"], none, []⟩ ∧
     genFieldConversion (pluginWith [("Title", "string")]) sampleFile
        (scalarField "Id" Kind.StringKind) todoModel false
      = some ⟨["to.Id = from.Id"], none, []⟩) ∧
    (genFieldConversion (pluginWith [("Title", "string")]) sampleFile
        (scalarField "Done" Kind.BoolKind) todoModel true
      = some ⟨[], none, []⟩ ∧
     genFieldConversion (pluginWith [("Title", "string")]) sampleFile
        (scalarField "Done" Kind.BoolKind) todoModel false
      = some ⟨[], none, []⟩) :=
  ⟨⟨absent_field (pluginWith [("Title", "string")]) sampleFile
      (scalarField "Id" Kind.StringKind) todoModel [("Title", "string")] true
      (by decide) (by decide) (by decide),
    absent_field (pluginWith [("Title", "string")]) sampleFile
      (scalarField "Id" Kind.StringKind) todoModel [("Title", "string")] false
      (by decide) (by decide) (by decide)⟩,
   ⟨absent_field (pluginWith [("Title", "string")]) sampleFile
      (scalarField "Done" Kind.BoolKind) todoModel [("Title", "string")] true
      (by decide) (by decide) (by decide),
    absent_field (pluginWith [("Title", "string")]) sampleFile
      (scalarField "Done" Kind.BoolKind) todoModel [("Title", "string")] false
      (by decide) (by decide) (by decide)⟩⟩

/-! ## The model field resolver -/

theorem lookup_insert_self {α : Type} (k : String) (v : α) (m : List (String × α)) :
    lookup k (insert k v m) = some v := by
  induction m with
  | nil => simp [insert, lookup]
  | cons e rest ih =>
    obtain ⟨k', v'⟩ := e
    by_cases h : k = k'
    · simp [insert, lookup, h]
    · simp [insert, lookup, h, ih]

theorem lookup_insert_ne {α : Type} (k k' : String) (v : α) (m : List (String × α))
    (h : k ≠ k') : lookup k (insert k' v m) = lookup k m := by
  induction m with
  | nil => simp [insert, lookup, h]
  | cons e rest ih =>
    obtain ⟨k'', v''⟩ := e
    by_cases h' : k' = k''
    · subst h'
      simp [insert, lookup, h]
    · by_cases h'' : k = k''
      · simp [insert, lookup, h', h'']
      · simp [insert, lookup, h', h'', ih]

theorem length_splitChar (sep : Char) (l : List Char) :
    (splitChar sep l).length = l.count sep + 1 := by
  induction l with
  | nil => simp [splitChar]
  | cons c cs ih =>
    by_cases hc : c = sep
    · subst hc
      simp [splitChar, ih]
    · have hne : (c == sep) = false := by simp [hc]
      cases hs : splitChar sep cs with
      | nil => simp [hs] at ih
      | cons seg segs =>
        rw [hs] at ih
        simp only [List.length_cons] at ih
        simp [splitChar, hc, hs, List.count_cons, hne, ih]

theorem afterSlash_of_count (l : List Char) (h : 0 < l.count '/') :
    ∃ rest, afterSlash l = some rest ∧ rest.count '/' + 1 = l.count '/' := by
  induction l with
  | nil => simp at h
  | cons c cs ih =>
    by_cases hc : c = '/'
    · subst hc
      exact ⟨cs, by simp [afterSlash], by simp⟩
    · have hne : (c == '/') = false := by simp [hc]
      have h' : 0 < cs.count '/' := by simpa [List.count_cons, hne] using h
      obtain ⟨rest, hr, hcount⟩ := ih h'
      exact ⟨rest, by simp [afterSlash, hc, hr], by simpa [List.count_cons, hne] using hcount⟩

theorem dropSegments_succ (n : Nat) (path : String) :
    dropSegments (n + 1) path = dropSegments n (stripSegment path) := by
  simp [dropSegments, Function.iterate_succ_apply]


theorem stripSegment_of_afterSlash (filename : String) (rest : List Char)
    (h : afterSlash filename.data = some rest) : stripSegment filename = String.mk rest := by
  simp [stripSegment, h]

theorem range_succ_map_dropSegments (n : Nat) (filename : String) :
    (List.range (n + 1)).map (fun i => dropSegments i filename) =
      filename :: (List.range n).map (fun i => dropSegments i (stripSegment filename)) := by
  rw [List.range_succ_eq_map]
  simp [List.map_map, Function.comp_def, dropSegments_succ, dropSegments]

/-- The retry loop returns when the bound exceeds the number of `/` in the file
name: either some candidate is the first that the parser returns a file for, or
all candidates are unreadable and the loop ends on the error of the last one. -/
theorem searchLoop_spec (PF : String → ParseResult) :
    ∀ (fuel : Nat) (filename : String) (err : Option String) (parsed : List String),
      filename.data.count '/' < fuel →
      ∃ s, searchLoop PF fuel filename err parsed = some s ∧
        ((∃ n file e, n < filename.data.count '/' ∧
            (∀ i, i < n → ∃ e', PF (dropSegments i filename) = ParseResult.unreadable e') ∧
            PF (dropSegments n filename) = ParseResult.parsed file e ∧
            s = ⟨some file, e,
              parsed ++ (List.range (n + 1)).map (fun i => dropSegments i filename)⟩) ∨
         ((∀ i, i < filename.data.count '/' →
              ∃ e', PF (dropSegments i filename) = ParseResult.unreadable e') ∧
            s.astFile = none ∧
            s.parsed = parsed ++
              (List.range (filename.data.count '/')).map (fun i => dropSegments i filename) ∧
            (filename.data.count '/' = 0 → s.err = err) ∧
            (0 < filename.data.count '/' →
              ∃ e', PF (dropSegments (filename.data.count '/' - 1) filename)
                  = ParseResult.unreadable e' ∧ s.err = some e'))) := by
  intro fuel
  induction fuel with
  | zero => intro filename err parsed h; omega
  | succ fuel ih =>
    intro filename err parsed hfuel
    unfold searchLoop
    rw [length_splitChar]
    by_cases hc : 0 < filename.data.count '/'
    · have hcond : 1 < filename.data.count '/' + 1 := by omega
      obtain ⟨rest, hrest, hcount⟩ := afterSlash_of_count filename.data hc
      have hstrip := stripSegment_of_afterSlash filename rest hrest
      simp only [hcond, if_true]
      cases hpf : PF filename with
      | parsed file e =>
        refine ⟨_, rfl, Or.inl ⟨0, file, e, hc, ?_, ?_, ?_⟩⟩
        · intro i hi; omega
        · simpa [dropSegments] using hpf
        · simp [dropSegments]
      | unreadable e0 =>
        simp only [hrest]
        have hfuel' : (String.mk rest).data.count '/' < fuel := by
          simp only
          omega
        obtain ⟨s, hs, hcase⟩ := ih (String.mk rest) (some e0) (parsed ++ [filename]) hfuel'
        refine ⟨s, hs, ?_⟩
        have hcount' : (String.mk rest).data.count '/' + 1 = filename.data.count '/' := hcount
        rcases hcase with ⟨n, file, e, hn, hun, hp, hseq⟩ | ⟨hun, hnone, hparsed, herr0, herr⟩
        · refine Or.inl ⟨n + 1, file, e, by omega, ?_, ?_, ?_⟩
          · intro i hi
            cases i with
            | zero => exact ⟨e0, by simpa [dropSegments] using hpf⟩
            | succ j =>
              rw [dropSegments_succ, hstrip]
              exact hun j (by omega)
          · rw [dropSegments_succ, hstrip]
            exact hp
          · rw [hseq, range_succ_map_dropSegments (n + 1) filename, hstrip]
            simp
        · refine Or.inr ⟨?_, hnone, ?_, ?_, ?_⟩
          · intro i hi
            cases i with
            | zero => exact ⟨e0, by simpa [dropSegments] using hpf⟩
            | succ j =>
              rw [dropSegments_succ, hstrip]
              exact hun j (by omega)
          · rw [hparsed, ← hcount', range_succ_map_dropSegments _ filename, hstrip]
            simp
          · intro h0; omega
          · intro _
            by_cases hz : (String.mk rest).data.count '/' = 0
            · refine ⟨e0, ?_, herr0 hz⟩
              have : filename.data.count '/' - 1 = 0 := by omega
              rw [this]
              simpa [dropSegments] using hpf
            · obtain ⟨e', hpe, hse⟩ := herr (by omega)
              refine ⟨e', ?_, hse⟩
              have : filename.data.count '/' - 1 = ((String.mk rest).data.count '/' - 1) + 1 := by
                omega
              rw [this, dropSegments_succ, hstrip]
              exact hpe
    · have hz : filename.data.count '/' = 0 := by omega
      have hcond : ¬ (1 < filename.data.count '/' + 1) := by omega
      simp only [hcond, if_false]
      refine ⟨_, rfl, Or.inr ⟨?_, rfl, ?_, ?_, ?_⟩⟩
      · intro i hi; omega
      · simp [hz]
      · intro _; rfl
      · intro h; omega


theorem searchLoop_mono (PF : String → ParseResult) :
    ∀ (fuel : Nat) (filename : String) (err : Option String) (parsed : List String) (s : Search),
      searchLoop PF fuel filename err parsed = some s →
      ∀ k, searchLoop PF (fuel + k) filename err parsed = some s := by
  intro fuel
  induction fuel with
  | zero => intro filename err parsed s h; simp [searchLoop] at h
  | succ fuel ih =>
    intro filename err parsed s h k
    have hk : fuel + 1 + k = (fuel + k) + 1 := by omega
    rw [hk]
    unfold searchLoop at h ⊢
    split
    · rename_i hcond
      simp only [hcond, if_true] at h
      cases hpf : PF filename with
      | parsed file e => simpa [hpf] using h
      | unreadable e0 =>
        simp only [hpf] at h ⊢
        cases hr : afterSlash filename.data with
        | none => simpa [hr] using h
        | some rest =>
          simp only [hr] at h ⊢
          exact ih _ _ _ _ h k
    · rename_i hcond
      simpa [hcond] using h

theorem count_modelFilename (env : Env) (model : GoIdent) :
    0 < (modelFilename env model).data.count '/' ∧
      (modelFilename env model).data.count '/' < (modelFilename env model).length + 1 := by
  constructor
  · simp [modelFilename, String.data_append, List.count_append]
  · generalize modelFilename env model = t
    obtain ⟨d⟩ := t
    have := List.count_le_length '/' d
    simp only [String.length]
    omega

/-- C19: the retry loop of `walkModelFields` on the candidate path
`<importPath>/<snake_case(name)>.go` returns for every parser, under every
bound above the number `k` of `/` in the path, and with the same result; it
makes at least one and at most `k` parse attempts; attempt `i` (from 0) is the
path with its first `i` leading segments removed; and it leaves with a parsed
file or with an error set. -/
theorem retry_loop_bounded (env : Env) (model : GoIdent) :
    ∃ s, (∀ fuel, (modelFilename env model).data.count '/' < fuel →
          searchLoop env.ParseFile fuel (modelFilename env model) none [] = some s) ∧
      searchLoop env.ParseFile ((modelFilename env model).length + 1) (modelFilename env model)
        none [] = some s ∧
      1 ≤ s.parsed.length ∧
      s.parsed.length ≤ (modelFilename env model).data.count '/' ∧
      s.parsed = (List.range s.parsed.length).map
        (fun i => dropSegments i (modelFilename env model)) ∧
      (s.astFile.isSome ∨ s.err.isSome) := by
  obtain ⟨hpos, hlen⟩ := count_modelFilename env model
  obtain ⟨s, hs, hcase⟩ := searchLoop_spec env.ParseFile
    ((modelFilename env model).data.count '/' + 1) (modelFilename env model) none []
    (Nat.lt_succ_self _)
  have hall : ∀ fuel, (modelFilename env model).data.count '/' < fuel →
      searchLoop env.ParseFile fuel (modelFilename env model) none [] = some s := by
    intro fuel hf
    have := searchLoop_mono env.ParseFile _ _ _ _ s hs
      (fuel - ((modelFilename env model).data.count '/' + 1))
    have he : (modelFilename env model).data.count '/' + 1 +
        (fuel - ((modelFilename env model).data.count '/' + 1)) = fuel := by omega
    rwa [he] at this
  refine ⟨s, hall, hall _ hlen, ?_⟩
  rcases hcase with ⟨n, file, e, hn, -, -, rfl⟩ | ⟨-, hnone, hparsed, -, herr⟩
  · simp
    omega
  · obtain ⟨e', -, he'⟩ := herr hpos
    refine ⟨?_, ?_, ?_, Or.inr (by simp [he'])⟩
    · rw [hparsed]
      simp only [List.nil_append, List.length_map, List.length_range]
      omega
    · simp [hparsed]
    · simp [hparsed]


/-- On the candidate path of a model the retry loop returns, after at least one
parse attempt, with a parsed file or with an error set. -/
theorem searchLoop_modelFilename (env : Env) (model : GoIdent) :
    ∃ s, searchLoop env.ParseFile ((modelFilename env model).length + 1)
        (modelFilename env model) none [] = some s ∧
      s.parsed ≠ [] ∧ (s.astFile.isSome ∨ s.err.isSome) := by
  obtain ⟨hpos, hlen⟩ := count_modelFilename env model
  obtain ⟨s, hs, hcase⟩ := searchLoop_spec env.ParseFile
    ((modelFilename env model).length + 1) (modelFilename env model) none [] hlen
  refine ⟨s, hs, ?_⟩
  rcases hcase with ⟨n, file, e, hn, -, -, rfl⟩ | ⟨-, hnone, hparsed, -, herr⟩
  · simp [List.range_succ]
  · obtain ⟨e', -, he'⟩ := herr hpos
    refine ⟨?_, Or.inr (by simp [he'])⟩
    intro h
    have hl := congrArg List.length h
    rw [hparsed] at hl
    simp only [List.nil_append, List.length_map, List.length_range, List.length_nil] at hl
    omega

/-- The outcomes of `walkModelFields`: a cache hit; or, on a miss, the retry
loop followed by an error, a stored field map, or the warning that the type
was not found. -/
theorem walkModelFields_cases (env : Env) (p : BimaPlugin) (model : GoIdent) :
    (∃ sf, lookup model.GoName p.modelTypes = some sf ∧
        walkModelFields env p model = some ⟨true, p, [], none, []⟩) ∨
    (lookup model.GoName p.modelTypes = none ∧
      ∃ s, searchLoop env.ParseFile ((modelFilename env model).length + 1)
          (modelFilename env model) none [] = some s ∧ s.parsed ≠ [] ∧
        ((∃ e, s.err = some e ∧
            walkModelFields env p model = some ⟨false, p, s.parsed, some e, []⟩) ∨
         (s.err = none ∧ ∃ file, s.astFile = some file ∧
            ((∃ fields, findInDecls model.GoName file.Decls = some fields ∧
                walkModelFields env p model =
                  some ⟨true, { p with modelTypes := insert model.GoName (addFields fields [])
                                                        p.modelTypes },
                    s.parsed, none, []⟩) ∨
             (findInDecls model.GoName file.Decls = none ∧
                walkModelFields env p model =
                  some ⟨false, p, s.parsed, none,
                    ["couldn\x27t find type " ++ model.GoName ++ " in " ++
                      modelFilename env model]⟩))))) := by
  cases hl : lookup model.GoName p.modelTypes with
  | some sf => exact Or.inl ⟨sf, rfl, by simp [walkModelFields, hl]⟩
  | none =>
    refine Or.inr ⟨rfl, ?_⟩
    obtain ⟨s, hs, hne, hsome⟩ := searchLoop_modelFilename env model
    refine ⟨s, hs, hne, ?_⟩
    cases he : s.err with
    | some e => exact Or.inl ⟨e, rfl, by simp [walkModelFields, hl, hs, he]⟩
    | none =>
      refine Or.inr ⟨rfl, ?_⟩
      cases hf : s.astFile with
      | none => simp [he, hf] at hsome
      | some file =>
        refine ⟨file, rfl, ?_⟩
        cases hd : findInDecls model.GoName file.Decls with
        | some fields => exact Or.inl ⟨fields, rfl, by simp [walkModelFields, hl, hs, he, hf, hd]⟩
        | none => exact Or.inr ⟨rfl, by simp [walkModelFields, hl, hs, he, hf, hd]⟩

/-- The method `walkModelFields` returns on every input. -/
theorem walkModelFields_total (env : Env) (p : BimaPlugin) (model : GoIdent) :
    ∃ r, walkModelFields env p model = some r := by
  rcases walkModelFields_cases env p model with ⟨_, _, h⟩ | ⟨_, s, _, _, h⟩
  · exact ⟨_, h⟩
  · rcases h with ⟨_, _, h⟩ | ⟨_, _, _, ⟨_, _, h⟩ | ⟨_, h⟩⟩ <;> exact ⟨_, h⟩


/-! ## The cache of field maps -/

theorem walkModelFields_preserves (env : Env) (p : BimaPlugin) (model : GoIdent)
    (r : WalkResult) (N : String) (sf : structFields)
    (h : walkModelFields env p model = some r) (hN : lookup N p.modelTypes = some sf) :
    lookup N r.plugin.modelTypes = some sf := by
  rcases walkModelFields_cases env p model with ⟨_, _, hw⟩ | ⟨hmiss, s, _, _, hw⟩
  · rw [hw] at h
    cases h
    exact hN
  · rcases hw with ⟨_, _, hw⟩ | ⟨_, _, _, ⟨_, _, hw⟩ | ⟨_, hw⟩⟩ <;> rw [hw] at h <;> cases h
    · exact hN
    · have hne : N ≠ model.GoName := by
        intro e
        rw [e, hmiss] at hN
        cases hN
      simpa [lookup_insert_ne N model.GoName _ _ hne] using hN
    · exact hN

theorem genModelExport_modelTypes (g : GeneratedFile) (p : BimaPlugin) (model : GoIdent) :
    (genModelExport g p model).1.modelTypes = p.modelTypes := by
  unfold genModelExport
  split <;> rfl

theorem genBindFunc_preserves (env : Env) (p : BimaPlugin) (g : GeneratedFile) (m : Message)
    (model : GoIdent) (r : Gen) (N : String) (sf : structFields)
    (h : genBindFunc env p g m model = some r) (hN : lookup N p.modelTypes = some sf) :
    lookup N r.plugin.modelTypes = some sf := by
  unfold genBindFunc at h
  cases hw : walkModelFields env p model with
  | none => simp [hw] at h
  | some w =>
    have hp := walkModelFields_preserves env p model w N sf hw hN
    simp only [hw] at h
    split at h
    · cases hg : genFields w.plugin g model false m.Fields with
      | none => simp [hg] at h
      | some t =>
        simp only [hg] at h
        cases h
        exact hp
    · cases h
      exact hp

theorem genBundleFunc_preserves (env : Env) (p : BimaPlugin) (g : GeneratedFile) (m : Message)
    (model : GoIdent) (r : Gen) (N : String) (sf : structFields)
    (h : genBundleFunc env p g m model = some r) (hN : lookup N p.modelTypes = some sf) :
    lookup N r.plugin.modelTypes = some sf := by
  unfold genBundleFunc at h
  cases hw : walkModelFields env p model with
  | none => simp [hw] at h
  | some w =>
    have hp := walkModelFields_preserves env p model w N sf hw hN
    simp only [hw] at h
    split at h
    · cases hg : genFields w.plugin g model true m.Fields with
      | none => simp [hg] at h
      | some t =>
        simp only [hg] at h
        cases h
        exact hp
    · cases h
      exact hp

theorem genMessage_preserves (env : Env) (p : BimaPlugin) (g : GeneratedFile) (f : fileInfo)
    (m : Message) (r : Gen) (N : String) (sf : structFields)
    (h : genMessage env p g f m = some r) (hN : lookup N p.modelTypes = some sf) :
    lookup N r.plugin.modelTypes = some sf := by
  unfold genMessage at h
  cases hmi : getModelIdent m with
  | none =>
    simp only [hmi] at h
    cases h
    exact hN
  | some mi =>
    simp only [hmi] at h
    cases hb : genBindFunc env (genModelExport g p mi).1 g m mi with
    | none => simp [hb] at h
    | some bind =>
      have h1 : lookup N (genModelExport g p mi).1.modelTypes = some sf := by
        rw [genModelExport_modelTypes]; exact hN
      have h2 := genBindFunc_preserves env _ g m mi bind N sf hb h1
      cases hc : genBundleFunc env bind.plugin g m mi with
      | none => simp [hb, hc] at h
      | some bundle =>
        have h3 := genBundleFunc_preserves env _ g m mi bundle N sf hc h2
        simp only [hb, hc] at h
        cases h
        exact h3

theorem genMessages_preserves (env : Env) (g : GeneratedFile) (f : fileInfo) (N : String)
    (sf : structFields) :
    ∀ (ms : List Message) (p : BimaPlugin) (r : Gen),
      genMessages env g f ms p = some r → lookup N p.modelTypes = some sf →
      lookup N r.plugin.modelTypes = some sf := by
  intro ms
  induction ms with
  | nil =>
    intro p r h hN
    simp only [genMessages] at h
    cases h
    exact hN
  | cons m ms ih =>
    intro p r h hN
    simp only [genMessages] at h
    cases ha : genMessage env p g f m with
    | none => simp [ha] at h
    | some a =>
      have h1 := genMessage_preserves env p g f m a N sf ha hN
      cases hb : genMessages env g f ms a.plugin with
      | none => simp [ha, hb] at h
      | some b =>
        have h2 := ih a.plugin b hb h1
        simp only [ha, hb] at h
        cases h
        exact h2

theorem generateFile_preserves (env : Env) (plugin : Plugin) (p : BimaPlugin) (f : fileInfo)
    (r : Gen) (N : String) (sf : structFields)
    (h : generateFile env plugin p f = some r) (hN : lookup N p.modelTypes = some sf) :
    lookup N r.plugin.modelTypes = some sf := by
  unfold generateFile at h
  simp only at h
  cases hb : genMessages env (plugin.NewGeneratedFile (generatedFilename f.File)
      f.File.GoImportPath) f f.File.Messages p with
  | none => simp [hb] at h
  | some b =>
    have h1 := genMessages_preserves env _ f N sf _ p b hb hN
    simp only [hb] at h
    cases h
    exact h1

/-- No operation of the plugin changes the field map stored for a model name. -/
theorem apply_preserves (op : PluginOp) (p : BimaPlugin) (N : String) (sf : structFields)
    (hN : lookup N p.modelTypes = some sf) :
    lookup N (op.apply p).modelTypes = some sf := by
  cases op with
  | init plugin => exact hN
  | walkModelFields env model =>
    simp only [PluginOp.apply]
    cases h : walkModelFields env p model with
    | none => simpa using hN
    | some r => simpa using walkModelFields_preserves env p model r N sf h hN
  | genModelExport g model =>
    simp only [PluginOp.apply, genModelExport_modelTypes]
    exact hN
  | genBindFunc env g m model =>
    simp only [PluginOp.apply]
    cases h : genBindFunc env p g m model with
    | none => simpa using hN
    | some r => simpa using genBindFunc_preserves env p g m model r N sf h hN
  | genBundleFunc env g m model =>
    simp only [PluginOp.apply]
    cases h : genBundleFunc env p g m model with
    | none => simpa using hN
    | some r => simpa using genBundleFunc_preserves env p g m model r N sf h hN
  | generateFile env plugin f =>
    simp only [PluginOp.apply]
    cases h : generateFile env plugin p f with
    | none => simpa using hN
    | some r => simpa using generateFile_preserves env plugin p f r N sf h hN

theorem applyOps_preserves (N : String) (sf : structFields) :
    ∀ (ops : List PluginOp) (p : BimaPlugin), lookup N p.modelTypes = some sf →
      lookup N (applyOps p ops).modelTypes = some sf := by
  intro ops
  induction ops with
  | nil => intro p h; exact h
  | cons op ops ih =>
    intro p h
    simp only [applyOps, List.foldl_cons]
    exact ih _ (apply_preserves op p N sf h)

/-- C12: once `walkModelFields` has returned true for a model, the field map
stored under its name stays the same through every sequence of operations of
the plugin, and every later call for a model of that name, whatever its import
path and whatever the file system, returns true on a cache hit: no parser call,
no error, no warning, and the plugin state unchanged. -/
theorem cached_model_stays (env0 : Env) (p0 : BimaPlugin) (m0 : GoIdent) (r0 : WalkResult)
    (h : walkModelFields env0 p0 m0 = some r0) (hok : r0.ok = true) :
    ∃ sf, lookup m0.GoName r0.plugin.modelTypes = some sf ∧
      ∀ ops, lookup m0.GoName (applyOps r0.plugin ops).modelTypes = some sf ∧
        ∀ env model, model.GoName = m0.GoName →
          walkModelFields env (applyOps r0.plugin ops) model =
            some ⟨true, applyOps r0.plugin ops, [], none, []⟩ := by
  have hstored : ∃ sf, lookup m0.GoName r0.plugin.modelTypes = some sf := by
    rcases walkModelFields_cases env0 p0 m0 with ⟨sf, hl, hw⟩ | ⟨_, s, _, _, hw⟩
    · rw [hw] at h
      cases h
      exact ⟨sf, hl⟩
    · rcases hw with ⟨_, _, hw⟩ | ⟨_, _, _, ⟨fields, _, hw⟩ | ⟨_, hw⟩⟩ <;> rw [hw] at h <;>
        cases h
      · simp at hok
      · exact ⟨_, lookup_insert_self _ _ _⟩
      · simp at hok
  obtain ⟨sf, hsf⟩ := hstored
  refine ⟨sf, hsf, fun ops => ?_⟩
  have hkeep := applyOps_preserves m0.GoName sf ops r0.plugin hsf
  refine ⟨hkeep, fun env model hname => ?_⟩
  rw [← hname] at hkeep
  simp [walkModelFields, hkeep]


/-- C12 on the model `Todo`, stored by a first call on the sample file system. -/
theorem cached_model_stays_witness :
    ∃ r0, walkModelFields sampleEnv ⟨[], []⟩ todoModel = some r0 ∧ r0.ok = true ∧
      ∃ sf, lookup "Todo" r0.plugin.modelTypes = some sf ∧
        ∀ ops, lookup "Todo" (applyOps r0.plugin ops).modelTypes = some sf ∧
          ∀ env model, model.GoName = "Todo" →
            walkModelFields env (applyOps r0.plugin ops) model =
              some ⟨true, applyOps r0.plugin ops, [], none, []⟩ :=
  ⟨⟨true,
     ⟨[], [("Todo", [("Id", "string"), ("Title", "string"), ("Note", "string"),
        ("Done", "*bool"), ("CreatedAt", "time.Time"), ("UpdatedAt", "*time.Time")])]⟩,
      ["example.com/todo/models/todo.go", "todo/models/todo.go"], none, []⟩,
    rfl, rfl,
    cached_model_stays sampleEnv ⟨[], []⟩ todoModel _ rfl rfl⟩

/-- C11, as stated, fails: on a file system where no candidate can be read the
first call for the model `Todo` returns false and leaves the cache empty, and
the second call on the resulting state hands the same three file names to the
parser again. -/
theorem not_found_parsed_again :
    (walkModelFields emptyEnv ⟨[], []⟩ todoModel).map (fun r => (r.ok, r.plugin.modelTypes))
      = some (false, []) ∧
    ((walkModelFields emptyEnv ⟨[], []⟩ todoModel).bind
        (fun r => walkModelFields emptyEnv r.plugin todoModel)).map (fun r => (r.ok, r.parsed))
      = some (false, ["example.com/todo/models/todo.go", "todo/models/todo.go",
          "models/todo.go"]) ∧
    ((walkModelFields emptyEnv ⟨[], []⟩ todoModel).bind
        (fun r => walkModelFields emptyEnv r.plugin todoModel)).map (fun r => r.parsed)
      ≠ some [] := by
  refine ⟨?_, ?_, ?_⟩ <;> decide

/-- C11, amended: when `walkModelFields` returns false for a model it leaves the
plugin state as it was, so nothing is cached, and a second call for the same
model on the same state and file system runs the same search again: it hands
the same file names, at least one, to the parser and returns the same result. -/
theorem not_found_not_cached (env : Env) (p : BimaPlugin) (model : GoIdent) (r : WalkResult)
    (h : walkModelFields env p model = some r) (hok : r.ok = false) :
    r.plugin = p ∧ r.parsed ≠ [] ∧ walkModelFields env r.plugin model = some r := by
  have hp : r.plugin = p ∧ r.parsed ≠ [] := by
    rcases walkModelFields_cases env p model with ⟨_, _, hw⟩ | ⟨_, s, _, hne, hw⟩
    · rw [hw] at h
      cases h
      simp at hok
    · rcases hw with ⟨_, _, hw⟩ | ⟨_, _, _, ⟨fields, _, hw⟩ | ⟨_, hw⟩⟩ <;> rw [hw] at h <;>
        cases h
      · exact ⟨rfl, hne⟩
      · simp at hok
      · exact ⟨rfl, hne⟩
  refine ⟨hp.1, hp.2, ?_⟩
  rw [hp.1]
  exact h

/-- C11, amended, for the model `Todo` on a file system where no file can be read. -/
theorem not_found_not_cached_witness :
    ∃ r, walkModelFields emptyEnv ⟨[], []⟩ todoModel = some r ∧ r.ok = false ∧
      r.plugin = ⟨[], []⟩ ∧ r.parsed ≠ [] ∧
      walkModelFields emptyEnv r.plugin todoModel = some r :=
  ⟨⟨false, ⟨[], []⟩,
      ["example.com/todo/models/todo.go", "todo/models/todo.go", "models/todo.go"],
      some "open models/todo.go: no such file or directory", []⟩,
    rfl, rfl, not_found_not_cached emptyEnv ⟨[], []⟩ todoModel _ rfl rfl⟩

/-- C13, as stated, fails: on a file system where no candidate can be read,
`walkModelFields` passes the error of the last parse attempt to `p.Error` and
prints no warning, and so do `genBindFunc` and `genBundleFunc`. -/
theorem unparsable_model_is_an_error :
    (walkModelFields emptyEnv ⟨[], []⟩ todoModel).map (fun r => (r.ok, r.err, r.warn))
      = some (false, some "open models/todo.go: no such file or directory", []) ∧
    (genBindFunc emptyEnv ⟨[], []⟩ sampleFile todoMessage todoModel).map
        (fun r => (r.lines, r.errors, r.warn))
      = some ([], ["open models/todo.go: no such file or directory"], []) ∧
    (genBundleFunc emptyEnv ⟨[], []⟩ sampleFile todoMessage todoModel).map
        (fun r => (r.lines, r.errors, r.warn))
      = some ([], ["open models/todo.go: no such file or directory"], []) := by
  refine ⟨?_, ?_, ?_⟩ <;> decide

/-- C13, amended: when the model is not cached and none of its candidate paths
can be read, `walkModelFields` returns false, leaves the plugin state as it
was, prints no warning and passes the error of the last parse attempt to
`p.Error`; `genBindFunc` and `genBundleFunc` then print no line, so no Bind,
ToModel or Bundle function is emitted, and each report that error. -/
theorem unparsable_reports_error (env : Env) (p : BimaPlugin) (g : GeneratedFile)
    (m : Message) (model : GoIdent)
    (hmiss : lookup model.GoName p.modelTypes = none)
    (hun : ∀ i, i < (modelFilename env model).data.count '/' →
      ∃ e, env.ParseFile (dropSegments i (modelFilename env model)) = ParseResult.unreadable e) :
    ∃ e parsed,
      env.ParseFile (dropSegments ((modelFilename env model).data.count '/' - 1)
        (modelFilename env model)) = ParseResult.unreadable e ∧
      parsed = (List.range ((modelFilename env model).data.count '/')).map
        (fun i => dropSegments i (modelFilename env model)) ∧
      walkModelFields env p model = some ⟨false, p, parsed, some e, []⟩ ∧
      genBindFunc env p g m model = some ⟨p, [], [e], [], parsed⟩ ∧
      genBundleFunc env p g m model = some ⟨p, [], [e], [], parsed⟩ := by
  obtain ⟨hpos, hlen⟩ := count_modelFilename env model
  obtain ⟨s, hs, hcase⟩ := searchLoop_spec env.ParseFile
    ((modelFilename env model).length + 1) (modelFilename env model) none [] hlen
  rcases hcase with ⟨n, file, e, hn, -, hp, -⟩ | ⟨-, hnone, hparsed, -, herr⟩
  · obtain ⟨e', he'⟩ := hun n hn
    rw [he'] at hp
    cases hp
  · obtain ⟨e, hpe, hse⟩ := herr hpos
    have hw : walkModelFields env p model = some ⟨false, p, s.parsed, some e, []⟩ := by
      simp [walkModelFields, hmiss, hs, hse]
    refine ⟨e, s.parsed, hpe, by simpa using hparsed, hw, ?_, ?_⟩
    · simp [genBindFunc, hw]
    · simp [genBundleFunc, hw]

/-- C13, amended, for the model `Todo` and the message `Todo` on a file system
where no file can be read. -/
theorem unparsable_reports_error_witness :
    ∃ e parsed,
      emptyEnv.ParseFile (dropSegments ((modelFilename emptyEnv todoModel).data.count '/' - 1)
        (modelFilename emptyEnv todoModel)) = ParseResult.unreadable e ∧
      parsed = (List.range ((modelFilename emptyEnv todoModel).data.count '/')).map
        (fun i => dropSegments i (modelFilename emptyEnv todoModel)) ∧
      walkModelFields emptyEnv ⟨[], []⟩ todoModel = some ⟨false, ⟨[], []⟩, parsed, some e, []⟩ ∧
      genBindFunc emptyEnv ⟨[], []⟩ sampleFile todoMessage todoModel
        = some ⟨⟨[], []⟩, [], [e], [], parsed⟩ ∧
      genBundleFunc emptyEnv ⟨[], []⟩ sampleFile todoMessage todoModel
        = some ⟨⟨[], []⟩, [], [e], [], parsed⟩ :=
  unparsable_reports_error emptyEnv ⟨[], []⟩ sampleFile todoMessage todoModel (by decide)
    (fun i _ => ⟨_, rfl⟩)

/-! ## The model alias -/

theorem genModelExport_eq (g : GeneratedFile) (p : BimaPlugin) (model : GoIdent) :
    genModelExport g p model =
      if modelExported p model.GoName = true then (p, [])
      else ({ p with modelExports := insert model.GoName true p.modelExports },
        [P ["type ", model.GoName, "Model = ", g.QualifiedGoIdent model], P []]) := by
  unfold genModelExport
  cases modelExported p model.GoName <;> simp

theorem modelExported_genModelExport (g : GeneratedFile) (p : BimaPlugin) (model : GoIdent)
    (N : String) :
    modelExported (genModelExport g p model).1 N =
      (modelExported p N || decide (N = model.GoName)) := by
  rw [genModelExport_eq]
  cases hx : modelExported p model.GoName
  · simp only [Bool.false_eq_true, if_false]
    by_cases hN : N = model.GoName
    · subst hN
      simp [modelExported, lookup_insert_self]
    · simp [hN, modelExported, lookup_insert_ne N model.GoName _ _ hN]
  · simp only [if_true]
    by_cases hN : N = model.GoName
    · subst hN
      simp [hx]
    · simp [hN]

theorem genModelExport_lines (g : GeneratedFile) (p : BimaPlugin) (model : GoIdent) :
    (genModelExport g p model).2 =
      if modelExported p model.GoName = true then []
      else [P ["type ", model.GoName, "Model = ", g.QualifiedGoIdent model], P []] := by
  rw [genModelExport_eq]
  by_cases hx : modelExported p model.GoName = true <;> simp [hx]

theorem genModelExports_length :
    ∀ (calls : List (GeneratedFile × GoIdent)) (p : BimaPlugin),
      (genModelExports p calls).2.length = calls.length := by
  intro calls
  induction calls with
  | nil => intro p; rfl
  | cons c cs ih => intro p; simp [genModelExports, ih]

theorem modelExported_genModelExports (N : String) :
    ∀ (calls : List (GeneratedFile × GoIdent)) (p : BimaPlugin),
      modelExported (genModelExports p calls).1 N =
        (modelExported p N || decide (N ∈ calls.map (fun c => c.2.GoName))) := by
  intro calls
  induction calls with
  | nil => intro p; simp [genModelExports]
  | cons c cs ih =>
    intro p
    simp only [genModelExports, ih, modelExported_genModelExport, List.map_cons,
      List.mem_cons]
    by_cases h1 : N = c.2.GoName <;> simp [h1]

theorem genModelExports_get :
    ∀ (pre : List (GeneratedFile × GoIdent)) (p : BimaPlugin) (call : GeneratedFile × GoIdent)
      (post : List (GeneratedFile × GoIdent)),
      (genModelExports p (pre ++ call :: post)).2[pre.length]? =
        some (if modelExported p call.2.GoName = true ∨
                call.2.GoName ∈ pre.map (fun c => c.2.GoName) then []
              else [P ["type ", call.2.GoName, "Model = ", call.1.QualifiedGoIdent call.2],
                    P []]) := by
  intro pre
  induction pre with
  | nil =>
    intro p call post
    simp [genModelExports, genModelExport_lines]
  | cons c cs ih =>
    intro p call post
    have hstep : (genModelExports p ((c :: cs) ++ call :: post)).2[(c :: cs).length]? =
        (genModelExports (genModelExport c.1 p c.2).1 (cs ++ call :: post)).2[cs.length]? := by
      simp [genModelExports]
    rw [hstep, ih, modelExported_genModelExport]
    by_cases h1 : call.2.GoName = c.2.GoName
    · simp [h1]
    · cases hx : modelExported p call.2.GoName
      · simp only [Bool.false_or, decide_eq_true_eq, h1, false_or, List.mem_cons,
          Bool.false_eq_true, List.map_cons]
      · simp

theorem genModelExports_count (N : String) :
    ∀ (calls : List (GeneratedFile × GoIdent)) (p : BimaPlugin),
      ((calls.zip (genModelExports p calls).2).filter
          (fun c => decide (c.1.2.GoName = N) && !c.2.isEmpty)).length =
        if modelExported p N = true then 0
        else if N ∈ calls.map (fun c => c.2.GoName) then 1 else 0 := by
  intro calls
  induction calls with
  | nil => intro p; simp [genModelExports]
  | cons c cs ih =>
    intro p
    have hstep : ((c :: cs).zip (genModelExports p (c :: cs)).2).filter
          (fun c => decide (c.1.2.GoName = N) && !c.2.isEmpty) =
        (if c.2.GoName = N ∧ modelExported p c.2.GoName = false
          then [(c, (genModelExport c.1 p c.2).2)] else []) ++
        (cs.zip (genModelExports (genModelExport c.1 p c.2).1 cs).2).filter
          (fun c => decide (c.1.2.GoName = N) && !c.2.isEmpty) := by
      simp only [genModelExports, List.zip_cons_cons, List.filter_cons, genModelExport_lines]
      by_cases hN : c.2.GoName = N
      · cases hx : modelExported p c.2.GoName <;> simp [hN]
      · simp [hN]
    rw [hstep, List.length_append, ih, modelExported_genModelExport]
    by_cases hN : c.2.GoName = N
    · subst hN
      cases hx : modelExported p c.2.GoName <;> simp
    · have hN' : ¬ N = c.2.GoName := fun e => hN e.symm
      cases hx : modelExported p N
      · simp only [Bool.false_or, decide_eq_true_eq, hN, hN', false_or, List.mem_cons,
          Bool.false_eq_true, if_false, false_and, List.length_nil, Nat.zero_add,
          List.map_cons]
      · simp [hN]

/-- C14: in a sequence of `genModelExport` calls on one plugin state, the call
at any position prints the alias line `type <N>Model = <model>` and an empty
line when its model name `N` is not yet marked in `modelExports` and no earlier
call of the sequence had that name, and prints nothing otherwise; so among the
calls with the name `N` exactly one prints, the first, unless `N` was marked
before the sequence (then none does); every name marked before a call is
still marked after the sequence, and so is the name of every call. -/
theorem alias_once (p : BimaPlugin) (pre : List (GeneratedFile × GoIdent))
    (call : GeneratedFile × GoIdent) (post : List (GeneratedFile × GoIdent)) :
    (genModelExports p (pre ++ call :: post)).2.length = (pre ++ call :: post).length ∧
    (genModelExports p (pre ++ call :: post)).2[pre.length]? =
      some (if modelExported p call.2.GoName = true ∨
              call.2.GoName ∈ pre.map (fun c => c.2.GoName) then []
            else [P ["type ", call.2.GoName, "Model = ", call.1.QualifiedGoIdent call.2],
                  P []]) ∧
    (((pre ++ call :: post).zip (genModelExports p (pre ++ call :: post)).2).filter
        (fun c => decide (c.1.2.GoName = call.2.GoName) && !c.2.isEmpty)).length =
      (if modelExported p call.2.GoName = true then 0 else 1) ∧
    (∀ N, modelExported p N = true →
      modelExported (genModelExports p (pre ++ call :: post)).1 N = true) ∧
    modelExported (genModelExports p (pre ++ call :: post)).1 call.2.GoName = true := by
  refine ⟨genModelExports_length _ _, genModelExports_get pre p call post, ?_, ?_, ?_⟩
  · rw [genModelExports_count]
    simp
  · intro N hN
    rw [modelExported_genModelExports, hN]
    rfl
  · rw [modelExported_genModelExports]
    simp


/-! ## The field map of a model -/

/-- The switch of `walkModelFields` on the field type stores the normalized
type string of the specification. -/
theorem fieldTypeString_eq_normalizedType (t : TypeExpr) :
    fieldTypeString t = normalizedType t := by
  cases t with
  | Ident n => rfl
  | StarExpr x => cases x <;> simp [fieldTypeString, normalizedType, String.append_assoc]
  | SelectorExpr x sel => rfl
  | ArrayType e => rfl
  | other => rfl

theorem lookup_addNames_some (typ : TypeExpr) (s : String) (h : fieldTypeString typ = some s)
    (n : String) :
    ∀ (names : List String) (sf : structFields),
      lookup n (addNames typ names sf) = if n ∈ names then some s else lookup n sf := by
  intro names
  induction names with
  | nil => intro sf; simp [addNames]
  | cons a as ih =>
    intro sf
    simp only [addNames, h, ih, List.mem_cons]
    by_cases hn : n = a
    · subst hn
      by_cases hm : n ∈ as <;> simp [hm, lookup_insert_self]
    · by_cases hm : n ∈ as <;> simp [hm, hn, lookup_insert_ne n a _ _ hn]

theorem addNames_none (typ : TypeExpr) (h : fieldTypeString typ = none) :
    ∀ (names : List String) (sf : structFields), addNames typ names sf = sf := by
  intro names
  induction names with
  | nil => intro sf; rfl
  | cons a as ih => intro sf; simp [addNames, h, ih]

/-- The entry of `n` after the names of one field have been added. -/
theorem lookup_addNames (f : AstField) (n : String) (sf : structFields) :
    lookup n (addNames f.Typ f.Names sf) =
      if n ∈ f.Names then (normalizedType f.Typ).orElse (fun _ => lookup n sf)
      else lookup n sf := by
  cases h : fieldTypeString f.Typ with
  | none =>
    rw [addNames_none _ h]
    rw [fieldTypeString_eq_normalizedType] at h
    by_cases hm : n ∈ f.Names <;> simp [hm, h]
  | some s =>
    rw [lookup_addNames_some _ s h]
    rw [fieldTypeString_eq_normalizedType] at h
    by_cases hm : n ∈ f.Names <;> simp [hm, h]

theorem lookup_addFields_not_declared (n : String) :
    ∀ (fields : List AstField) (sf : structFields), n ∉ declaredNames fields →
      lookup n (addFields fields sf) = lookup n sf := by
  intro fields
  induction fields with
  | nil => intro sf _; rfl
  | cons f fs ih =>
    intro sf hn
    simp only [declaredNames, List.mem_append, not_or] at hn
    simp only [addFields]
    rw [ih _ hn.2, lookup_addNames, if_neg hn.1]

theorem lookup_addFields_origin (n s : String) :
    ∀ (fields : List AstField) (sf : structFields),
      lookup n (addFields fields sf) = some s →
      lookup n sf = some s ∨ ∃ f ∈ fields, n ∈ f.Names ∧ normalizedType f.Typ = some s := by
  intro fields
  induction fields with
  | nil => intro sf h; exact Or.inl h
  | cons f fs ih =>
    intro sf h
    simp only [addFields] at h
    rcases ih _ h with h1 | ⟨f', hf', hn, hs⟩
    · rw [lookup_addNames] at h1
      by_cases hm : n ∈ f.Names
      · rw [if_pos hm] at h1
        cases hnt : normalizedType f.Typ with
        | none =>
          rw [hnt] at h1
          exact Or.inl (by simpa using h1)
        | some s' =>
          rw [hnt] at h1
          have : s' = s := by simpa using h1
          subst this
          exact Or.inr ⟨f, by simp, hm, hnt⟩
      · rw [if_neg hm] at h1
        exact Or.inl h1
    · exact Or.inr ⟨f', by simp [hf'], hn, hs⟩

theorem lookup_addFields_isSome (n : String) :
    ∀ (fields : List AstField) (sf : structFields),
      (lookup n (addFields fields sf)).isSome = true ↔
        ((lookup n sf).isSome = true ∨
          ∃ f ∈ fields, n ∈ f.Names ∧ (normalizedType f.Typ).isSome = true) := by
  intro fields
  induction fields with
  | nil => intro sf; simp [addFields]
  | cons f fs ih =>
    intro sf
    simp only [addFields]
    rw [ih, lookup_addNames]
    by_cases hm : n ∈ f.Names
    · rw [if_pos hm]
      cases hnt : normalizedType f.Typ with
      | none =>
        simp only [Option.orElse, List.mem_cons, exists_eq_or_imp, hnt, Option.isSome_none]
        simp
      | some s' =>
        simp only [Option.orElse, Option.isSome_some, true_or, true_iff]
        exact Or.inr ⟨f, by simp, hm, by simp [hnt]⟩
    · rw [if_neg hm]
      simp [hm]

theorem lookup_addFields_nodup (n : String) :
    ∀ (fields : List AstField) (sf : structFields), (declaredNames fields).Nodup →
      ∀ f ∈ fields, n ∈ f.Names →
        lookup n (addFields fields sf) =
          (normalizedType f.Typ).orElse (fun _ => lookup n sf) := by
  intro fields
  induction fields with
  | nil => intro sf _ f hf; simp at hf
  | cons f0 fs ih =>
    intro sf hnd f hf hn
    simp only [declaredNames] at hnd
    rw [List.nodup_append] at hnd
    obtain ⟨-, hnd2, hdisj⟩ := hnd
    simp only [addFields]
    by_cases hin : n ∈ declaredNames fs
    · have hn0 : n ∉ f0.Names := fun h0 => hdisj h0 hin
      have hf' : f ∈ fs := by
        rcases List.mem_cons.1 hf with h | h
        · subst h
          exact absurd hn hn0
        · exact h
      rw [ih _ hnd2 f hf' hn, lookup_addNames, if_neg hn0]
    · have hff : f = f0 := by
        rcases List.mem_cons.1 hf with h | h
        · exact h
        · exfalso
          apply hin
          clear ih hnd2 hdisj hf
          induction fs with
          | nil => simp at h
          | cons g gs ihg =>
            simp only [declaredNames, List.mem_append]
            rcases List.mem_cons.1 h with h | h
            · subst h; exact Or.inl hn
            · exact Or.inr (ihg (fun hh => hin (by simp [declaredNames, hh])) h)
      subst hff
      rw [lookup_addFields_not_declared n fs _ hin, lookup_addNames, if_pos hn]


/-- C15: when the model is not cached, the first candidate path that can be
read is parsed without error, and `fields` is the field list of the first
struct declared under the name of the model, `walkModelFields` returns true and
stores a field map `sf` with exactly the names of the named fields whose type
has a normalized type string (`T`, `*T`, `O.M`, `*O.M`): a name is in `sf` iff
some field of such a type declares it; every string in `sf` is the normalized
type string of a field declaring the name; and, the declared names being
pairwise distinct, every name of every field is mapped to the normalized type
string of its field, and is absent when there is none (embedded fields declare
no name; arrays, maps, functions and double pointers have no string). -/
theorem struct_field_map (env : Env) (p : BimaPlugin) (model : GoIdent) (n : Nat)
    (astFile : AstFile) (fields : List AstField)
    (hmiss : lookup model.GoName p.modelTypes = none)
    (hn : n < (modelFilename env model).data.count '/')
    (hun : ∀ i, i < n →
      ∃ e, env.ParseFile (dropSegments i (modelFilename env model)) = ParseResult.unreadable e)
    (hparse : env.ParseFile (dropSegments n (modelFilename env model))
      = ParseResult.parsed astFile none)
    (hfind : findInDecls model.GoName astFile.Decls = some fields) :
    ∃ sf,
      walkModelFields env p model =
        some ⟨true, { p with modelTypes := insert model.GoName sf p.modelTypes },
          (List.range (n + 1)).map (fun i => dropSegments i (modelFilename env model)),
          none, []⟩ ∧
      lookup model.GoName (insert model.GoName sf p.modelTypes) = some sf ∧
      (∀ name, (lookup name sf).isSome = true ↔
        ∃ f ∈ fields, name ∈ f.Names ∧ (normalizedType f.Typ).isSome = true) ∧
      (∀ name s, lookup name sf = some s →
        ∃ f ∈ fields, name ∈ f.Names ∧ normalizedType f.Typ = some s) ∧
      ((declaredNames fields).Nodup →
        ∀ f ∈ fields, ∀ name ∈ f.Names, lookup name sf = normalizedType f.Typ) := by
  obtain ⟨-, hlen⟩ := count_modelFilename env model
  obtain ⟨s, hs, hcase⟩ := searchLoop_spec env.ParseFile
    ((modelFilename env model).length + 1) (modelFilename env model) none [] hlen
  have hsearch : s = ⟨some astFile, none,
      (List.range (n + 1)).map (fun i => dropSegments i (modelFilename env model))⟩ := by
    rcases hcase with ⟨n', file, e, hn', hun', hp', hseq⟩ | ⟨hall, -, -, -, -⟩
    · have hnn : n' = n := by
        rcases Nat.lt_trichotomy n' n with h | h | h
        · obtain ⟨e', he'⟩ := hun n' h
          rw [he'] at hp'
          cases hp'
        · exact h
        · obtain ⟨e', he'⟩ := hun' n h
          rw [he'] at hparse
          cases hparse
      subst hnn
      rw [hparse] at hp'
      cases hp'
      simpa using hseq
    · obtain ⟨e', he'⟩ := hall n hn
      rw [he'] at hparse
      cases hparse
  subst hsearch
  refine ⟨addFields fields [], ?_, lookup_insert_self _ _ _, ?_, ?_, ?_⟩
  · simp [walkModelFields, hmiss, hs, hfind]
  · intro name
    rw [lookup_addFields_isSome]
    simp [lookup]
  · intro name s' h
    rcases lookup_addFields_origin name s' fields [] h with h0 | h1
    · simp [lookup] at h0
    · exact h1
  · intro hnd f hf name hname
    rw [lookup_addFields_nodup name fields [] hnd f hf hname]
    cases normalizedType f.Typ <;> simp [lookup]

/-- C15 on the file `todo/models/todo.go`, found at the second candidate path:
the stored map has `Id`, `Title`, `Note`, `Done`, `CreatedAt` and `UpdatedAt`,
and neither the embedded `bima.Model` nor `Tags []string` nor `Owner **User`. -/
theorem struct_field_map_witness :
    (∃ sf,
      walkModelFields sampleEnv ⟨[], []⟩ todoModel =
        some ⟨true, ⟨[], insert "Todo" sf []⟩,
          (List.range (1 + 1)).map (fun i => dropSegments i (modelFilename sampleEnv todoModel)),
          none, []⟩ ∧
      lookup "Todo" (insert "Todo" sf []) = some sf ∧
      (∀ name, (lookup name sf).isSome = true ↔
        ∃ f ∈ todoFields, name ∈ f.Names ∧ (normalizedType f.Typ).isSome = true) ∧
      (∀ name s, lookup name sf = some s →
        ∃ f ∈ todoFields, name ∈ f.Names ∧ normalizedType f.Typ = some s) ∧
      ((declaredNames todoFields).Nodup →
        ∀ f ∈ todoFields, ∀ name ∈ f.Names, lookup name sf = normalizedType f.Typ)) ∧
    (walkModelFields sampleEnv ⟨[], []⟩ todoModel).map (fun r => r.plugin.modelTypes)
      = some [("Todo", [("Id", "string"), ("Title", "string"), ("Note", "string"),
          ("Done", "*bool"), ("CreatedAt", "time.Time"), ("UpdatedAt", "*time.Time")])] :=
  ⟨struct_field_map sampleEnv ⟨[], []⟩ todoModel 1 todoSource todoFields
    (by decide) (by decide)
    (fun i hi => ⟨"open example.com/todo/models/todo.go: no such file or directory", by
      have h0 : i = 0 := by omega
      subst h0
      rfl⟩)
    (by decide) (by decide),
   by decide⟩

/-! ## The response envelope emitter -/

theorem successMethods_failureMethods (M R : String) :
    successMethods M R status200 ++ failureMethods M R status400 = statusMethods M R := by
  simp [successMethods, failureMethods, status200, status400, statusMethods]

theorem methodsOfFields_none (g : GeneratedFile) (m msg : Message) :
    ∀ fields : List MessageField, (∀ f ∈ fields, f.Name ≠ "data") →
      methodsOfFields g m msg fields = [] := by
  intro fields
  induction fields with
  | nil => intro _; rfl
  | cons f fs ih =>
    intro h
    have hf : isDataFieldOf m f = false := by
      simp [isDataFieldOf, h f (by simp)]
    simp [methodsOfFields, hf, ih (fun f' hf' => h f' (by simp [hf']))]

/-- The lines for one message of the file: the five status methods when it has
a field that passes the test, nothing otherwise; the names of its fields being
pairwise distinct, at most one field is named `data`. -/
theorem methodsOfFields_eq (g : GeneratedFile) (m msg : Message) :
    ∀ fields : List MessageField, (fields.map (fun f => f.Name)).Nodup →
      methodsOfFields g m msg fields =
        if fields.any (isDataFieldOf m) then
          statusMethods (g.QualifiedGoIdent m.GoIdent) (g.QualifiedGoIdent msg.GoIdent)
        else [] := by
  intro fields
  induction fields with
  | nil => intro _; rfl
  | cons f fs ih =>
    intro hnd
    simp only [List.map_cons, List.nodup_cons] at hnd
    cases hf : isDataFieldOf m f
    · simp [methodsOfFields, hf, ih hnd.2]
    · have hname : f.Name = "data" := by
        simp only [isDataFieldOf, Bool.and_eq_true, decide_eq_true_eq] at hf
        exact hf.1.1
      have hrest : methodsOfFields g m msg fs = [] := by
        apply methodsOfFields_none
        intro f' hf' e
        apply hnd.1
        rw [hname, ← e]
        exact List.mem_map_of_mem _ hf'
      simp [methodsOfFields, hf, hrest, successMethods_failureMethods]

/-- C16: the field names of every message being pairwise distinct,
`genResponseStatusMethod` for the message `m` prints, for each message `R` of
the file whose name ends in `Response` and that has a singular field named
`data` of message type `m`, in the order of the file, the five methods
`statusMethods` on `m`: `R` followed by StatusOK, StatusCreated,
StatusNoContent, StatusBadRequest, StatusNotFound, each with
`Code: http.<status>,`, with `Data: x,` in all but StatusNoContent, and with
the parameter `err error` and `Message: err.Error(),` in the last two only.
When no such `R` exists nothing is printed. -/
theorem response_status_methods (g : GeneratedFile) (m : Message) (ms : List Message)
    (hnames : ∀ R ∈ ms, (R.Fields.map (fun f => f.Name)).Nodup) :
    genResponseStatusMethod g m ms = statusMethodsOfAll g m (ms.filter (isResponseOf m)) ∧
    (ms.filter (isResponseOf m) = [] → genResponseStatusMethod g m ms = []) := by
  have hmain : genResponseStatusMethod g m ms =
      statusMethodsOfAll g m (ms.filter (isResponseOf m)) := by
    induction ms with
    | nil => rfl
    | cons R Rs ih =>
      have ih' := ih (fun R' hR' => hnames R' (by simp [hR']))
      have hR := methodsOfFields_eq g m R R.Fields (hnames R (by simp))
      simp only [genResponseStatusMethod, List.filter_cons, isResponseOf, ih', hR]
      by_cases h1 : matchResponse R.GoIdent.GoName = true <;>
        by_cases h2 : R.Fields.any (isDataFieldOf m) = true <;>
        simp [h1, h2, statusMethodsOfAll]
  refine ⟨hmain, fun h => ?_⟩
  rw [hmain, h]
  rfl


/-- C16 on the file with the messages `Todo`, `CreateTodoResponse` (singular
`data` of type `Todo`) and `TodoPaginatedResponse` (repeated `data`): the five
methods on `Todo` for `CreateTodoResponse`, and none for the paginated one. -/
theorem response_status_methods_witness :
    genResponseStatusMethod sampleFile todoMessage
        [todoMessage, createTodoResponse, todoPaginatedResponse] =
      ["func (x *Todo) CreateTodoResponseStatusOK() (*CreateTodoResponse, error) \x7b",
       "return &CreateTodoResponse\x7b", "Code: http.StatusOK,", "Data: x,", "\x7d, nil", "\x7d", "",
       "func (x *Todo) CreateTodoResponseStatusCreated() (*CreateTodoResponse, error) \x7b",
       "return &CreateTodoResponse\x7b", "Code: http.StatusCreated,", "Data: x,", "\x7d, nil",
       "\x7d", "",
       "func (x *Todo) CreateTodoResponseStatusNoContent() (*CreateTodoResponse, error) \x7b",
       "return &CreateTodoResponse\x7b", "Code: http.StatusNoContent,", "\x7d, nil", "\x7d", "",
       "func (x *Todo) CreateTodoResponseStatusBadRequest(err error) (*CreateTodoResponse, error) \x7b",
       "return &CreateTodoResponse\x7b", "Code: http.StatusBadRequest,", "Data: x,",
       "Message: err.Error(),", "\x7d, nil", "\x7d", "",
       "func (x *Todo) CreateTodoResponseStatusNotFound(err error) (*CreateTodoResponse, error) \x7b",
       "return &CreateTodoResponse\x7b", "Code: http.StatusNotFound,", "Data: x,",
       "Message: err.Error(),", "\x7d, nil", "\x7d", ""] ∧
    genResponseStatusMethod sampleFile createTodoResponse
        [todoMessage, createTodoResponse, todoPaginatedResponse] = [] :=
  ⟨(response_status_methods sampleFile todoMessage
      [todoMessage, createTodoResponse, todoPaginatedResponse] (by decide)).1.trans (by decide),
   (response_status_methods sampleFile createTodoResponse
      [todoMessage, createTodoResponse, todoPaginatedResponse] (by decide)).2 rfl⟩

theorem successFuncs_failureFuncs (R p T : String) (paginated : Bool) :
    successFuncs R p T status200 ++ failureFuncs R p T paginated status400 =
      statusFuncs R p T paginated := by
  cases paginated <;>
    simp [successFuncs, failureFuncs, status200, status400, statusFuncs]

/-- C17: `genResponseStatusFunc` for the response `R` prints, for each of its
fields named `data` of message kind, in order, the five constructors
`statusFuncs`: three success and two failure functions, the payload parameter
of type `[]*T` for a list field and `*T` otherwise, the failure functions with
the additional parameter `err error`, and with the line `Message: err.Error(),`
exactly when the name of `R` does not end in `PaginatedResponse`.  A `data`
field that is not of message kind prints nothing. -/
theorem response_status_funcs (g : GeneratedFile) (R : Message) :
    genResponseStatusFunc g R =
      statusFuncsOfAll g R
        (R.Fields.filter (fun f => decide (f.Name = "data") && f.field.Desc.hasMessage)) ∧
    ((∀ f ∈ R.Fields, f.Name = "data" → f.field.Desc.hasMessage = false) →
      genResponseStatusFunc g R = []) := by
  have hmain : ∀ fields : List MessageField,
      funcsOfFields g R fields =
        statusFuncsOfAll g R
          (fields.filter (fun f => decide (f.Name = "data") && f.field.Desc.hasMessage)) := by
    intro fields
    induction fields with
    | nil => rfl
    | cons f fs ih =>
      simp only [funcsOfFields, List.filter_cons, ih, successFuncs_failureFuncs]
      by_cases h1 : f.Name = "data" <;> by_cases h2 : f.field.Desc.hasMessage = true <;>
        simp [h1, h2, statusFuncsOfAll, FieldDesc.IsList]
  refine ⟨hmain R.Fields, fun h => ?_⟩
  unfold genResponseStatusFunc
  rw [hmain]
  have hnil : R.Fields.filter
      (fun f => decide (f.Name = "data") && f.field.Desc.hasMessage) = [] := by
    rw [List.filter_eq_nil_iff]
    intro f hf
    by_cases h1 : f.Name = "data"
    · simp [h1, h f hf h1]
    · simp [h1]
  rw [hnil]
  rfl

/-! ## The order of generation -/

/-- C18 (the code departs from the claim): for the request with the files
`todo.proto` and `summary.proto`, both with a message bound to the model
`Todo`, the loop over the map `p.files` may visit the two files in either
order; visiting `todo.proto` first creates `todo.pb.bima.go` first and puts the
alias `type TodoModel = models.Todo` into it, visiting `summary.proto` first
creates `summary.pb.bima.go` first and puts the alias there. -/
theorem generation_order_not_fixed :
    isRangeOrder samplePlugin [⟨todoProto, false⟩, ⟨summaryProto, false⟩] ∧
    isRangeOrder samplePlugin [⟨summaryProto, false⟩, ⟨todoProto, false⟩] ∧
    (Generate sampleEnv samplePlugin [⟨todoProto, false⟩, ⟨summaryProto, false⟩]).map
        (fun r => r.files.map (fun f => (f.1, decide ("type TodoModel = models.Todo" ∈ f.2))))
      = some [("todo.pb.bima.go", true), ("summary.pb.bima.go", false)] ∧
    (Generate sampleEnv samplePlugin [⟨summaryProto, false⟩, ⟨todoProto, false⟩]).map
        (fun r => r.files.map (fun f => (f.1, decide ("type TodoModel = models.Todo" ∈ f.2))))
      = some [("summary.pb.bima.go", true), ("todo.pb.bima.go", false)] := by
  refine ⟨?_, ?_, by decide, by decide⟩
  · exact List.Perm.refl _
  · exact List.Perm.swap _ _ _

/-! ## Pointers to other types -/

/-- C20, as stated, fails: for the enum field `Status` and the declared type
`*models.Status` Bundle prints a conversion of the dereferenced pointer and
Bind a conversion into a local whose address is taken; for a `StringValue`
field and the declared type `*models.Label` Bundle prints the guarded wrapper
assignment; and for a `Timestamp` field and the declared type `*models.Stamp`
an error is reported. -/
theorem pointer_to_other_type_not_dropped :
    genFieldConversion (pluginWith [("Status", "*models.Status")]) sampleFile statusField
        todoModel true
      = some ⟨["to.Status = TodoStatus(*from.Status)"], none, []⟩ ∧
    genFieldConversion (pluginWith [("Status", "*models.Status")]) sampleFile statusField
        todoModel false
      = some ⟨["status := models.Status(from.Status)", "to.Status = &status"], none, []⟩ ∧
    genFieldConversion (pluginWith [("Label", "*models.Label")]) sampleFile
        (messageField "Label" (wrapperIdent "StringValue")) todoModel true
      = some ⟨["if from.Label != nil \x7b",
               "to.Label = &wrapperspb.StringValue\x7bValue: *from.Label\x7d", "\x7d"],
          none, []⟩ ∧
    genFieldConversion (pluginWith [("CreatedAt", "*models.Stamp")]) sampleFile
        (messageField "CreatedAt" timestampIdent) todoModel true
      = some ⟨[], some "type *models.Stamp is not to be used for Timestamp", []⟩ := by
  refine ⟨?_, ?_, ?_, ?_⟩ <;> decide

/-- C20, amended: let the model field map hold the declared type `*D` for a
singular field, `D` being no SQL-null wrapper type (this covers every `D` that
is neither a primitive, nor an SQL-null wrapper, nor `time.Time`).  Then, in
both directions, `genFieldConversion` returns with no line and no error if and
only if the field is of message kind and its message type is neither a
well-known wrapper nor `Timestamp`.  Such a field of message kind prints no
line and reports no error and no warning whatever the model field map holds
for it. -/
theorem other_message_dropped (p : BimaPlugin) (g : GeneratedFile) (field : Field)
    (model : GoIdent) (sf : structFields) (toX : Bool)
    (hmodel : lookup model.GoName p.modelTypes = some sf)
    (hs : field.Desc.cardinality = Cardinality.singular) (hw : field.Desc.IsWeak = false) :
    (field.Desc.hasMessage = true →
      lookup (lastPart ("*" ++ g.QualifiedGoIdent field.Message)) wellKnownTypes = none →
      lastPart ("*" ++ g.QualifiedGoIdent field.Message) ≠ "Timestamp" →
      genFieldConversion p g field model toX = some ⟨[], none, []⟩) ∧
    (∀ D : String, lookup field.GoName sf = some ("*" ++ D) → lookup D sqlTypes = none →
      ((∃ e, genFieldConversion p g field model toX = some e ∧ e.lines = [] ∧ e.err = none) ↔
        (field.Desc.hasMessage = true ∧
          lookup (lastPart ("*" ++ g.QualifiedGoIdent field.Message)) wellKnownTypes = none ∧
          lastPart ("*" ++ g.QualifiedGoIdent field.Message) ≠ "Timestamp"))) := by
  have hl : field.Desc.IsList = false := by simp [FieldDesc.IsList, hs]
  have ha : field.Desc.hasMessage = true →
      lookup (lastPart ("*" ++ g.QualifiedGoIdent field.Message)) wellKnownTypes = none →
      lastPart ("*" ++ g.QualifiedGoIdent field.Message) ≠ "Timestamp" →
      genFieldConversion p g field model toX = some ⟨[], none, []⟩ := by
    intro hm hwk hts
    unfold genFieldConversion
    rw [fieldGoType_message g field hs hw hm]
    simp only [hmodel, hl, hm, hwk, hts, Bool.false_eq_true, if_false, if_true]
    cases lookup field.GoName sf <;> rfl
  refine ⟨ha, fun D hD hsql => ⟨?_, fun ⟨hm, hwk, hts⟩ => ⟨_, ha hm hwk hts, rfl, rfl⟩⟩⟩
  rintro ⟨e, he, hlines, herr⟩
  cases hm : field.Desc.hasMessage
  · exfalso
    obtain ⟨⟨goType, wp⟩, hft⟩ := fieldGoType_singular g field hs
    unfold genFieldConversion at he
    simp only [hft, hmodel, hl, hm, hD, parseType_star, hsql, Bool.false_eq_true, if_false,
      if_true] at he
    repeat' split at he
    all_goals first
      | (injection he with he; subst he; simp at hlines herr)
      | (injection he)
  · refine ⟨rfl, ?_⟩
    unfold genFieldConversion at he
    rw [fieldGoType_message g field hs hw hm] at he
    simp only [hmodel, hl, hm, hD, parseType_star, hsql, Bool.false_eq_true, if_false,
      if_true] at he
    cases hwk : lookup (lastPart ("*" ++ g.QualifiedGoIdent field.Message)) wellKnownTypes with
    | some v =>
      exfalso
      simp only [hwk] at he
      repeat' split at he
      all_goals first
        | (injection he with he; subst he; simp at hlines herr)
        | (injection he)
    | none =>
      refine ⟨rfl, ?_⟩
      intro hts
      simp only [hwk, hts, if_true] at he
      repeat' split at he
      all_goals first
        | (injection he with he; subst he; simp at hlines herr)
        | (injection he)

/-- C20, amended, at the field `Owner` of message type `User` with the declared
type `*models.User`, which is dropped in both directions, and at the enum field
`Status` with the declared type `*TodoStatus`, which is not dropped. -/
theorem other_message_dropped_witness :
    genFieldConversion (pluginWith [("Owner", "*models.User")]) sampleFile ownerField
        todoModel true = some ⟨[], none, []⟩ ∧
    genFieldConversion (pluginWith [("Owner", "*models.User")]) sampleFile ownerField
        todoModel false = some ⟨[], none, []⟩ ∧
    ¬ ∃ e, genFieldConversion (pluginWith [("Status", "*TodoStatus")]) sampleFile statusField
        todoModel true = some e ∧ e.lines = [] ∧ e.err = none :=
  ⟨(other_message_dropped (pluginWith [("Owner", "*models.User")]) sampleFile ownerField
      todoModel [("Owner", "*models.User")] true (by decide) (by decide) (by decide)).1
      (by decide) (by decide) (by decide),
   (other_message_dropped (pluginWith [("Owner", "*models.User")]) sampleFile ownerField
      todoModel [("Owner", "*models.User")] false (by decide) (by decide) (by decide)).1
      (by decide) (by decide) (by decide),
   fun h => absurd
    (((other_message_dropped (pluginWith [("Status", "*TodoStatus")]) sampleFile statusField
      todoModel [("Status", "*TodoStatus")] true (by decide) (by decide) (by decide)).2
      "TodoStatus" (by decide) (by decide)).1 h).1 (by decide)⟩

/-! ## The pointer marker of a declared type -/

/-- C21: `parseType` splits a declared type at one leading `*`.  The pointer
flag is set exactly when the string starts with `*`; the string is the core
type, with a `*` in front when the flag is set; only the first `*` is removed,
so `**T` gives `*T`; the empty string gives itself with the flag unset.  After
the type string built by `walkModelFields`, a pointer to the identifier `T`
gives `T` with the flag set and the identifier `T` gives `T` with the flag
unset; an identifier does not start with `*`. -/
theorem parseType_laws (s T : String) (hT : T.data.head? ≠ some '*') :
    ((parseType s).2 = true ↔ ∃ t, s = "*" ++ t) ∧
      (s = if (parseType s).2 then "*" ++ (parseType s).1 else (parseType s).1) ∧
      (∀ t, parseType ("*" ++ t) = (t, true)) ∧
      parseType "**T" = ("*T", true) ∧
      parseType "" = ("", false) ∧
      (fieldTypeString (.StarExpr (.Ident T))).map parseType = some (T, true) ∧
      (fieldTypeString (.Ident T)).map parseType = some (T, false) := by
  refine ⟨?_, parseType_spec s, parseType_star, by decide, by decide, ?_, ?_⟩
  · constructor
    · intro hb
      rcases parseType_cases s with ⟨c, hs, _⟩ | ⟨hp, _⟩
      · exact ⟨c, hs⟩
      · rw [hp] at hb
        cases hb
    · rintro ⟨t, rfl⟩
      rw [parseType_star]
  · simp only [fieldTypeString, Option.map_some', parseType_star]
  · simp only [fieldTypeString, Option.map_some', parseType_plain T hT]

/-- C21 at the declared type `*time.Time` and the identifier `string`. -/
theorem parseType_laws_witness :
    "string".data.head? ≠ some '*' ∧
      ((parseType "*time.Time").2 = true ↔ ∃ t, "*time.Time" = "*" ++ t) ∧
      (fieldTypeString (.StarExpr (.Ident "string"))).map parseType = some ("string", true) ∧
      (fieldTypeString (.Ident "string")).map parseType = some ("string", false) :=
  have h := parseType_laws "*time.Time" "string" (by decide)
  ⟨by decide, h.1, h.2.2.2.2.2.1, h.2.2.2.2.2.2⟩

/-! ## Nesting of the emitted lines -/

theorem closesBlock_not_opens (l : String) (h : closesBlock l = true) : opensBlock l = false := by
  simp only [closesBlock, decide_eq_true_eq] at h
  subst h
  decide

theorem braceBalance_nil : braceBalance [] = 0 := by simp [braceBalance]

theorem braceBalance_cons (l : String) (ls : List String) :
    braceBalance (l :: ls) =
      (if opensBlock l then 1 else 0) - (if closesBlock l then 1 else 0) + braceBalance ls := by
  unfold braceBalance
  simp only [List.filter_cons]
  cases opensBlock l <;> cases closesBlock l <;> simp <;> omega

/-- A list of lines accepted from the depth `d` keeps `d` plus the balance of
every prefix non-negative and ends at depth zero. -/
theorem nestedFrom_sound (lines : List String) :
    ∀ d : Nat, nestedFrom d lines = true →
      (∀ n, 0 ≤ (d : Int) + braceBalance (lines.take n)) ∧
        (d : Int) + braceBalance lines = 0 := by
  induction lines with
  | nil =>
    intro d h
    simp only [nestedFrom, beq_iff_eq] at h
    subst h
    simp [braceBalance_nil]
  | cons l ls ih =>
    intro d h
    unfold nestedFrom at h
    cases hc : closesBlock l
    · rw [hc] at h
      cases ho : opensBlock l
      · rw [ho] at h
        simp only [Bool.false_eq_true, if_false] at h
        obtain ⟨h1, h2⟩ := ih d h
        refine ⟨fun n => ?_, ?_⟩
        · cases n with
          | zero => simp [braceBalance_nil]
          | succ n =>
            rw [List.take_succ_cons, braceBalance_cons, ho, hc]
            have := h1 n
            simpa using this
        · rw [braceBalance_cons, ho, hc]
          simpa using h2
      · rw [ho] at h
        simp only [Bool.false_eq_true, if_false, if_true] at h
        obtain ⟨h1, h2⟩ := ih (d + 1) h
        refine ⟨fun n => ?_, ?_⟩
        · cases n with
          | zero => simp [braceBalance_nil]
          | succ n =>
            rw [List.take_succ_cons, braceBalance_cons, ho, hc]
            have := h1 n
            push_cast at this
            simp only [if_true, Bool.false_eq_true, if_false]
            omega
        · rw [braceBalance_cons, ho, hc]
          push_cast at h2
          simp only [if_true, Bool.false_eq_true, if_false]
          omega
    · rw [hc] at h
      have ho := closesBlock_not_opens l hc
      simp only [if_true] at h
      cases d with
      | zero => simp at h
      | succ d =>
        simp only at h
        obtain ⟨h1, h2⟩ := ih d h
        refine ⟨fun n => ?_, ?_⟩
        · cases n with
          | zero =>
            simp only [List.take_zero, braceBalance_nil]
            omega
          | succ n =>
            rw [List.take_succ_cons, braceBalance_cons, ho, hc]
            have := h1 n
            push_cast
            simp only [if_true, Bool.false_eq_true, if_false]
            omega
        · rw [braceBalance_cons, ho, hc]
          push_cast
          simp only [if_true, Bool.false_eq_true, if_false]
          omega


theorem getLast?_P_nil : (P []).data.getLast? = none := rfl

theorem getLast?_P_cons (a : String) (rest : List String) :
    (P (a :: rest)).data.getLast? = ((P rest).data.getLast?).or a.data.getLast? := by
  simp [P, String.data_append, List.getLast?_append]

theorem closesBlock_P_long (a : String) (rest : List String) (h : 2 ≤ a.data.length) :
    closesBlock (P (a :: rest)) = false := by
  simp only [closesBlock, decide_eq_false_iff_not]
  intro hc
  have hl : (P (a :: rest)).length = 1 := by rw [hc]; rfl
  have hp : (P (a :: rest)).length = a.length + (P rest).length := by
    simp [P, String.length_append]
  have ha : a.length = a.data.length := rfl
  omega

theorem closesBlock_P_assign (a : String) (rest : List String) :
    closesBlock (P (a :: " := " :: rest)) = false := by
  simp only [closesBlock, decide_eq_false_iff_not]
  intro hc
  have hl : (P (a :: " := " :: rest)).length = 1 := by rw [hc]; rfl
  have hp : (P (a :: " := " :: rest)).length = a.length + (4 + (P rest).length) := by
    simp only [P, List.foldr_cons, String.length_append]
    rfl
  omega

theorem toLower_eq_open (c : Char) (h : c.toLower = '\x7b') : c = '\x7b' := by
  unfold Char.toLower at h
  simp only at h
  split at h
  · rename_i hn
    obtain ⟨h1, h2⟩ := hn
    exfalso
    generalize c.toNat = n at h h1 h2
    have h1' : 65 ≤ n := h1
    interval_cases n <;> revert h <;> decide
  · exact h

theorem toLowerFirst_last (F lower : String) (h : toLowerFirst F = some lower)
    (hF : F.data.getLast? ≠ some '\x7b') : lower.data.getLast? ≠ some '\x7b' := by
  unfold toLowerFirst at h
  split at h
  · cases h
  · rename_i c rest hd
    cases h
    rw [hd] at hF
    cases rest with
    | nil =>
      simp only [List.getLast?_singleton, ne_eq, Option.some.injEq] at hF ⊢
      intro hc
      apply hF
      exact toLower_eq_open c hc
    | cons b t =>
      simpa [List.getLast?_cons_cons] using hF

theorem getLast?_append_data (a b : String) :
    (a ++ b).data.getLast? = (b.data.getLast?).or a.data.getLast? := by
  rw [String.data_append, List.getLast?_append]

theorem closesBlock_close : closesBlock (P ["\x7d"]) = true := by decide

set_option maxHeartbeats 4000000 in
/-- Every conversion printed without an error is accepted from depth zero, when
the Go name of the field does not end in `{`. -/
theorem genFieldConversion_nested (p : BimaPlugin) (g : GeneratedFile) (field : Field)
    (model : GoIdent) (toX : Bool) (e : Emit)
    (hname : field.GoName.data.getLast? ≠ some '\x7b')
    (h : genFieldConversion p g field model toX = some e) (herr : e.err = none) :
    nestedFrom 0 e.lines = true := by
  have hlow : ∀ lower, toLowerFirst field.GoName = some lower →
      (lower.data.getLast? = some '\x7b') = False :=
    fun lower hl => eq_false (toLowerFirst_last _ _ hl hname)
  unfold genFieldConversion at h
  dsimp only at h
  repeat' split at h
  all_goals first
    | (injection h with h; subst h)
    | injection h
  all_goals try (simp at herr; done)
  all_goals dsimp only
  all_goals
    rcases hl : field.GoName.data.getLast? with _ | c
  all_goals first
    | (simp [nestedFrom, closesBlock_P_long, closesBlock_P_assign, closesBlock_close, opensBlock,
        getLast?_P_cons, getLast?_P_nil, getLast?_append_data, -String.data_append, hl, hlow, *]
       done)
    | (simp only [hl, ne_eq, Option.some.injEq] at hname
       simp [nestedFrom, closesBlock_P_long, closesBlock_P_assign, closesBlock_close, opensBlock,
        getLast?_P_cons, getLast?_P_nil, getLast?_append_data, -String.data_append, hl, hlow,
        hname, *])

/-- Lines accepted from depth `k`, followed by lines accepted from depth `d`,
are accepted from depth `k + d`. -/
theorem nestedFrom_append (a b : List String) (d : Nat) (hb : nestedFrom d b = true) :
    ∀ k : Nat, nestedFrom k a = true → nestedFrom (k + d) (a ++ b) = true := by
  induction a with
  | nil =>
    intro k h
    simp only [nestedFrom, beq_iff_eq] at h
    subst h
    simpa using hb
  | cons l ls ih =>
    intro k h
    rw [List.cons_append]
    unfold nestedFrom at h ⊢
    cases hc : closesBlock l
    · rw [hc] at h
      cases ho : opensBlock l
      · rw [ho] at h
        simp only [Bool.false_eq_true, if_false] at h ⊢
        exact ih k h
      · rw [ho] at h
        simp only [Bool.false_eq_true, if_false, if_true] at h ⊢
        have := ih (k + 1) h
        rwa [Nat.add_right_comm] at this
    · rw [hc] at h
      simp only [if_true] at h ⊢
      cases k with
      | zero => simp at h
      | succ k =>
        simp only at h
        have := ih k h
        rw [Nat.add_right_comm]
        exact this

/-- The lines of the field loop are accepted from depth zero when no field
reports an error. -/
theorem genFields_nested (p : BimaPlugin) (g : GeneratedFile) (model : GoIdent) (toX : Bool) :
    ∀ (fs : List MessageField) (ls ws : List String),
      (∀ f ∈ fs, f.field.GoName.data.getLast? ≠ some '\x7b') →
      genFields p g model toX fs = some (ls, [], ws) → nestedFrom 0 ls = true := by
  intro fs
  induction fs with
  | nil =>
    intro ls ws _ h
    simp only [genFields, Option.some.injEq, Prod.mk.injEq] at h
    rw [← h.1]
    rfl
  | cons f fs ih =>
    intro ls ws hn h
    unfold genFields at h
    cases he : genFieldConversion p g f.field model toX with
    | none => simp [he] at h
    | some e =>
      cases hr : genFields p g model toX fs with
      | none => simp [he, hr] at h
      | some r =>
        obtain ⟨ls', es', ws'⟩ := r
        simp only [he, hr, Option.some.injEq, Prod.mk.injEq, List.append_eq_nil] at h
        obtain ⟨hl, ⟨herr, hes⟩, _⟩ := h
        subst hes
        have herr' : e.err = none := by
          cases hx : e.err with
          | none => rfl
          | some x => simp [hx] at herr
        have h1 := genFieldConversion_nested p g f.field model toX e
          (hn f (List.mem_cons_self _ _)) he herr'
        have h2 := ih ls' ws' (fun f' hf => hn f' (List.mem_cons_of_mem _ hf)) hr
        rw [← hl]
        exact nestedFrom_append e.lines ls' 0 h2 0 h1

/-- The function `Bundle` printed without an error is well nested. -/
theorem genBundleFunc_nested (env : Env) (p : BimaPlugin) (g : GeneratedFile) (m : Message)
    (model : GoIdent) (b : Gen)
    (hn : ∀ f ∈ m.Fields, f.field.GoName.data.getLast? ≠ some '\x7b')
    (h : genBundleFunc env p g m model = some b) (herr : b.errors = []) :
    nestedFrom 0 b.lines = true := by
  unfold genBundleFunc at h
  cases hw : walkModelFields env p model with
  | none => simp [hw] at h
  | some r =>
    simp only [hw] at h
    cases hok : r.ok
    · simp only [hok, Bool.false_eq_true, if_false, Option.some.injEq] at h
      subst h
      rfl
    · simp only [hok, if_true] at h
      cases hf : genFields r.plugin g model true m.Fields with
      | none => simp [hf] at h
      | some t =>
        obtain ⟨ls, es, ws⟩ := t
        simp only [hf, Option.some.injEq] at h
        subst h
        simp only [List.append_eq_nil] at herr
        obtain ⟨_, hes⟩ := herr
        subst hes
        have h2 := genFields_nested r.plugin g model true m.Fields ls ws hn hf
        have h3 := nestedFrom_append ls [P ["\x7d"], P []] 1 (by decide) 0 h2
        simpa [nestedFrom, closesBlock_P_long, opensBlock, getLast?_P_cons, getLast?_P_nil,
          -String.data_append] using h3

/-- The functions `Bind` and `ToModel` printed without an error are well nested. -/
theorem genBindFunc_nested (env : Env) (p : BimaPlugin) (g : GeneratedFile) (m : Message)
    (model : GoIdent) (b : Gen)
    (hn : ∀ f ∈ m.Fields, f.field.GoName.data.getLast? ≠ some '\x7b')
    (h : genBindFunc env p g m model = some b) (herr : b.errors = []) :
    nestedFrom 0 b.lines = true := by
  unfold genBindFunc at h
  cases hw : walkModelFields env p model with
  | none => simp [hw] at h
  | some r =>
    simp only [hw] at h
    cases hok : r.ok
    · simp only [hok, Bool.false_eq_true, if_false, Option.some.injEq] at h
      subst h
      rfl
    · simp only [hok, if_true] at h
      cases hf : genFields r.plugin g model false m.Fields with
      | none => simp [hf] at h
      | some t =>
        obtain ⟨ls, es, ws⟩ := t
        simp only [hf, Option.some.injEq] at h
        subst h
        simp only [List.append_eq_nil] at herr
        obtain ⟨_, hes⟩ := herr
        subst hes
        have h2 := genFields_nested r.plugin g model false m.Fields ls ws hn hf
        have hto : nestedFrom 0 (genToModelFunc g m model) = true := by
          simp [genToModelFunc, nestedFrom, closesBlock_P_long, closesBlock_close, opensBlock,
            getLast?_P_cons, getLast?_P_nil, -String.data_append]
          decide
        have h3 := nestedFrom_append ls ([P ["\x7d"], P []] ++ genToModelFunc g m model) 1
          (by
            have := nestedFrom_append [P ["\x7d"], P []] (genToModelFunc g m model) 0 hto 1
              (by decide)
            simpa using this) 0 h2
        simpa [nestedFrom, closesBlock_P_long, opensBlock, getLast?_P_cons, getLast?_P_nil,
          -String.data_append] using h3

/-- The functions printed by `genBundleFunc` and by `genBindFunc` are well
nested when no error is reported and no field name ends in `{`: the balance of
every prefix of the lines is not negative and the balance of all of them is zero. -/
theorem function_bodies_well_nested (env : Env) (p : BimaPlugin) (g : GeneratedFile)
    (m : Message) (model : GoIdent) (b : Gen)
    (hn : ∀ f ∈ m.Fields, f.field.GoName.data.getLast? ≠ some '\x7b')
    (h : genBundleFunc env p g m model = some b ∨ genBindFunc env p g m model = some b)
    (herr : b.errors = []) :
    (∀ n, 0 ≤ braceBalance (b.lines.take n)) ∧ braceBalance b.lines = 0 := by
  have hb : nestedFrom 0 b.lines = true := by
    rcases h with h | h
    · exact genBundleFunc_nested env p g m model b hn h herr
    · exact genBindFunc_nested env p g m model b hn h herr
  have hs := nestedFrom_sound b.lines 0 hb
  simpa using hs

/-- C22: the lines printed by `genFieldConversion` for one field, when it
reports no error, are well nested: in every prefix of the lines the number of
lines ending in `{` minus the number of lines equal to `}` is not negative, and
over all the lines it is zero.  The Go name of the field, an identifier, does
not end in `{`. -/
theorem conversion_lines_well_nested (p : BimaPlugin) (g : GeneratedFile) (field : Field)
    (model : GoIdent) (toX : Bool) (e : Emit)
    (hname : field.GoName.data.getLast? ≠ some '\x7b')
    (h : genFieldConversion p g field model toX = some e) (herr : e.err = none) :
    (∀ n, 0 ≤ braceBalance (e.lines.take n)) ∧ braceBalance e.lines = 0 := by
  have hs := nestedFrom_sound e.lines 0 (genFieldConversion_nested p g field model toX e hname h herr)
  simpa using hs

/-- C22 at the wrapper field `Count` bound to the declared type `*int`, in Bind. -/
theorem conversion_lines_well_nested_witness :
    genFieldConversion (pluginWith [("Count", "*int")]) sampleFile
        (messageField "Count" (wrapperIdent "Int64Value")) todoModel false
      = some ⟨["if from.Count != nil \x7b", "count := int(from.Count.Value)",
               "to.Count = &count", "\x7d"], none, []⟩ ∧
    (∀ n, 0 ≤ braceBalance (List.take n ["if from.Count != nil \x7b",
        "count := int(from.Count.Value)", "to.Count = &count", "\x7d"])) ∧
    braceBalance ["if from.Count != nil \x7b", "count := int(from.Count.Value)",
        "to.Count = &count", "\x7d"] = 0 :=
  ⟨by decide,
   conversion_lines_well_nested (pluginWith [("Count", "*int")]) sampleFile
    (messageField "Count" (wrapperIdent "Int64Value")) todoModel false
    ⟨["if from.Count != nil \x7b", "count := int(from.Count.Value)",
      "to.Count = &count", "\x7d"], none, []⟩ (by decide) (by decide) rfl⟩
end Bima
